import Mathlib

/-!
# gitpaws: the current month of a GitHub contribution calendar

A shallow embedding of `cmd/gitpaws/main.go`.

* `colorForCount` is the function of the same name.
* The parts of Go's `time` package that `main` calls are embedded following the structure
  of the library (`daysSinceEpoch`, `daysBefore`, `norm`, `absDate`, `lookup`, `getnum`,
  `atoi`).  Go offsets its absolute count from the year -292277022399 so that unsigned
  division rounds down; here the count starts at 0001-01-01 and `Int` division rounds down,
  which gives the same civil dates.  Go's `%` truncates, but it is only compared with 0 or
  applied to non-negative values here, where it agrees with `Int` remainder.
* `time.Parse` with the layout `"2006-01-02"` returns midnight instants in UTC; they are the
  day numbers `Time`, built by `Date` and read by `Time.Year/Month/Day`.
* `time.Date(..., time.Local)`, `Time.AddDate` and the accessors of the times built from
  them go through the offset table of the location: `Location`, `DateIn`, `ZonedTime`.
  `time.Local` is an input of a run, as are the year and month of `time.Now()`.
* Years and counts are `Int`: the code compares counts and never adds to them, and the
  calendar arithmetic stays far from the range of a Go `int` for any year a clock can show.
* The aggregation loop is `aggregate`, the rendering part is `renderGrid` / `render`, and
  `main` ties them together with the configuration and HTTP steps as a list of events.
  Standard output is the list of the texts printed, one per `fmt.Print*` call.
-/

namespace Gitpaws

/-! ## Color bands -/

/-- The function `colorForCount` of `main.go`: the ANSI cell for a contribution count
(`\033` of the Go source is the escape character `\x1b`). -/
def colorForCount (count : Int) : String :=
  if count = 0 then "\x1b[48;5;236m  \x1b[0m"
  else if count < 2 then "\x1b[48;5;114m  \x1b[0m"
  else if count < 6 then "\x1b[48;5;34m  \x1b[0m"
  else if count < 10 then "\x1b[48;5;28m  \x1b[0m"
  else "\x1b[48;5;22m  \x1b[0m"

/-! ## Go's `time` package: calendar arithmetic -/

/-- A Go `time.Time` at 00:00:00 UTC: the number of days since 0001-01-01. -/
structure Time where
  abs : Int
deriving DecidableEq

/-- The zero `Time{}` of Go: January 1, year 1, 00:00:00 UTC. -/
def Time.zero : Time := ⟨0⟩

/-- Go `isLeap`. -/
def isLeap (year : Int) : Bool :=
  year % 4 == 0 && (year % 100 != 0 || year % 400 == 0)

/-- Go `daysBefore`: `daysBefore[m]` counts the days in a non-leap year before month `m+1`. -/
def daysBefore : List Int :=
  [0, 31, 59, 90, 120, 151, 181, 212, 243, 273, 304, 334, 365]

/-- Indexing `daysBefore[i]`. -/
def daysBeforeAt (i : Int) : Int := daysBefore.getD i.toNat 0

/-- Go `daysIn`. -/
def daysIn (m : Int) (year : Int) : Int :=
  if m == 2 && isLeap year then 29
  else daysBeforeAt m - daysBeforeAt (m - 1)

/-- Go `norm`: returns `nhi, nlo` with `hi * base + lo == nhi * base + nlo` and
`0 <= nlo < base`. -/
def norm (hi lo base : Int) : Int × Int :=
  let (hi, lo) :=
    if lo < 0 then
      let n := (-lo - 1) / base + 1
      (hi - n, lo + n * base)
    else (hi, lo)
  if lo ≥ base then
    let n := lo / base
    (hi + n, lo - n * base)
  else (hi, lo)

/-- Go `daysSinceEpoch`: days from the epoch to January 1 of `year`, adding 400-year,
100-year and 4-year cycles and then the remaining years. -/
def daysSinceEpoch (year : Int) : Int :=
  let y := year - 1
  let n400 := y / 400
  let y1 := y - 400 * n400
  let d := 146097 * n400
  let n100 := y1 / 100
  let y2 := y1 - 100 * n100
  let d := d + 36524 * n100
  let n4 := y2 / 4
  let y3 := y2 - 4 * n4
  let d := d + 1461 * n4
  d + 365 * y3

/-- Go `time.Date(year, month, day, 0, 0, 0, 0, time.UTC)`: the month is normalized into
the year, then the day number is computed; a day outside the month carries over. -/
def Date (year month day : Int) : Time :=
  let m := month - 1
  let (year, m) := norm year m 12
  let month := m + 1
  let d := daysSinceEpoch year
  let d := d + daysBeforeAt (month - 1)
  let d := if isLeap year && month ≥ 3 then d + 1 else d
  let d := d + (day - 1)
  ⟨d⟩

/-- The year part of Go `absDate`: the year and the zero-based day within it. -/
def absYear (abs : Int) : Int × Int :=
  let d := abs
  let n := d / 146097
  let y := 400 * n
  let d := d - 146097 * n
  let n := d / 36524
  let n := n - n / 4
  let y := y + 100 * n
  let d := d - 36524 * n
  let n := d / 1461
  let y := y + 4 * n
  let d := d - 1461 * n
  let n := d / 365
  let n := n - n / 4
  let y := y + n
  let d := d - 365 * n
  (y + 1, d)

/-- The month part of Go `absDate`: month and day of the month from the zero-based day of
the year. -/
def monthDay (leap : Bool) (yday : Int) : Int × Int :=
  if leap && yday == 31 + 29 - 1 then (2, 29)
  else
    let day := if leap && yday > 31 + 29 - 1 then yday - 1 else yday
    let month := day / 31
    let end_ := daysBeforeAt (month + 1)
    let (month, begin) :=
      if day ≥ end_ then (month + 1, end_) else (month, daysBeforeAt month)
    (month + 1, day - begin + 1)

/-- Go `absDate` with `full = true`: year, month, day. -/
def absDate (abs : Int) : Int × Int × Int :=
  let (year, yday) := absYear abs
  let (month, day) := monthDay (isLeap year) yday
  (year, month, day)

/-- Go `Time.Year` of a UTC midnight. -/
def Time.Year (t : Time) : Int := (absDate t.abs).1

/-- Go `Time.Month` of a UTC midnight (January = 1). -/
def Time.Month (t : Time) : Int := (absDate t.abs).2.1

/-- Go `Time.Day` of a UTC midnight. -/
def Time.Day (t : Time) : Int := (absDate t.abs).2.2

/-- Go `Time.Weekday` of a UTC midnight (Sunday = 0 .. Saturday = 6); the epoch day is a
Monday. -/
def Time.Weekday (t : Time) : Int := (t.abs + 1) % 7

/-! ## Go's `time` package: locations and local times -/

/-- Go `Location`: the UTC offset in seconds in force before the first transition, and
the transitions in ascending order, each the Unix second from which an offset is in
force and that offset.  The rule string with which Go extends a table past its last
transition is left out: the instants looked up lie inside the tables used. -/
structure Location where
  firstOffset : Int
  tx : List (Int × Int)
deriving DecidableEq

/-- Go `alpha`, the start of time for `lookup`. -/
def lookupAlpha : Int := -(2 ^ 63)

/-- Go `omega`, the end of time for `lookup`. -/
def lookupOmega : Int := 2 ^ 63 - 1

/-- The search of Go `Location.lookup`: the offset in force at `sec` and the bounds of the
period it is in force for, given the offset and start of the period before the
transitions still to look at. -/
def lookupFrom (offset start : Int) : List (Int × Int) → Int → Int × Int × Int
  | [], _ => (offset, start, lookupOmega)
  | (w, off) :: rest, sec =>
    if sec < w then (offset, start, w) else lookupFrom off w rest sec

/-- Go `Location.lookup`: offset, start and end of the period that holds `sec`. -/
def Location.lookup (l : Location) (sec : Int) : Int × Int × Int :=
  lookupFrom l.firstOffset lookupAlpha l.tx sec

/-- Go `time.UTC`. -/
def Location.UTC : Location := ⟨0, []⟩

/-- Go `unixToInternal`: the seconds from 0001-01-01 to 1970-01-01. -/
def unixToInternal : Int := (1969 * 365 + 1969 / 4 - 1969 / 100 + 1969 / 400) * 86400

/-- Go `time.Time` with a location: the instant in Unix seconds and the location. -/
structure ZonedTime where
  unix : Int
  loc : Location
deriving DecidableEq

/-- Go `time.Date(year, month, day, hour, min, sec, 0, loc)`: the fields are normalized,
the wall time is counted in seconds as if in UTC, and the offset of the location is
looked up at that second and, when the result falls outside the period found, again at
the result. -/
def DateIn (year month day hour min sec : Int) (loc : Location) : ZonedTime :=
  let m := month - 1
  let (year, m) := norm year m 12
  let month := m + 1
  let (min, sec) := norm min sec 60
  let (hour, min) := norm hour min 60
  let (day, hour) := norm day hour 24
  let d := daysSinceEpoch year
  let d := d + daysBeforeAt (month - 1)
  let d := if isLeap year && month ≥ 3 then d + 1 else d
  let d := d + (day - 1)
  let abs := d * 86400
  let abs := abs + (hour * 3600 + min * 60 + sec)
  let unix := abs - unixToInternal
  let (offset, start, end_) := loc.lookup unix
  let unix :=
    if offset ≠ 0 then
      let utc := unix - offset
      let offset := if utc < start ∨ utc ≥ end_ then (loc.lookup utc).1 else offset
      unix - offset
    else unix
  ⟨unix, loc⟩

/-- Go `Time.abs`: the wall time in the location, in seconds since 0001-01-01. -/
def ZonedTime.abs (t : ZonedTime) : Int :=
  t.unix + (t.loc.lookup t.unix).1 + unixToInternal

/-- Go `Time.Year`. -/
def ZonedTime.Year (t : ZonedTime) : Int := (absDate (t.abs / 86400)).1

/-- Go `Time.Month` (January = 1). -/
def ZonedTime.Month (t : ZonedTime) : Int := (absDate (t.abs / 86400)).2.1

/-- Go `Time.Day`. -/
def ZonedTime.Day (t : ZonedTime) : Int := (absDate (t.abs / 86400)).2.2

/-- Go `Time.Weekday` (Sunday = 0 .. Saturday = 6), as `absWeekday` computes it. -/
def ZonedTime.Weekday (t : ZonedTime) : Int := (t.abs + 1 * 86400) % (7 * 86400) / 86400

/-- Go `Time.Clock`: hour, minute and second of the wall time. -/
def ZonedTime.Clock (t : ZonedTime) : Int × Int × Int :=
  let sec := t.abs % 86400
  let hour := sec / 3600
  let sec := sec - hour * 3600
  let min := sec / 60
  let sec := sec - min * 60
  (hour, min, sec)

/-- Go `Time.AddDate`: the date and the clock are read in the location, the date is
shifted, and the time is built again by `Date` in the same location. -/
def ZonedTime.AddDate (t : ZonedTime) (years months days : Int) : ZonedTime :=
  let (hour, min, sec) := t.Clock
  DateIn (t.Year + years) (t.Month + months) (t.Day + days) hour min sec t.loc

/-! ## Go's `time.Parse` for the layout `"2006-01-02"` -/

/-- Go `isDigit`: whether `s[i]` exists and is a decimal digit. -/
def isDigit (s : List Char) (i : Nat) : Bool :=
  match s.get? i with
  | none => false
  | some c => decide ('0' ≤ c) && decide (c ≤ '9')

/-- The value `c - '0'` of a digit byte. -/
def digitVal (c : Char) : Int := (c.toNat : Int) - 48

/-- Go `leadingInt`: consumes the leading digits of `s`; `none` on overflow. -/
def leadingInt : List Char → Int → Option (Int × List Char)
  | [], x => some (x, [])
  | c :: s, x =>
    if c < '0' ∨ c > '9' then some (x, c :: s)
    else if x > 2 ^ 63 / 10 then none
    else
      let x := x * 10 + digitVal c
      if x > 2 ^ 63 then none else leadingInt s x

/-- Go `atoi`: an optional sign and then digits only. -/
def atoi (s : List Char) : Option Int :=
  let (neg, s) :=
    match s with
    | '-' :: r => (true, r)
    | '+' :: r => (false, r)
    | _ => (false, s)
  match leadingInt s 0 with
  | none => none
  | some (q, rem) => if rem.length > 0 then none else some (if neg then -q else q)

/-- Go `getnum`: a one- or two-digit number; `fixed` demands two digits. -/
def getnum (s : List Char) (fixed : Bool) : Option (Int × List Char) :=
  if !isDigit s 0 then none
  else if !isDigit s 1 then
    if fixed then none else some (digitVal (s.getD 0 '0'), s.drop 1)
  else some (digitVal (s.getD 0 '0') * 10 + digitVal (s.getD 1 '0'), s.drop 2)

/-- Go `skip` for a literal prefix without spaces (the layout has none): the value must
start with the prefix, which is removed. -/
def skip : List Char → List Char → Option (List Char)
  | value, [] => some value
  | [], _ :: _ => none
  | v :: value, p :: pre => if v ≠ p then none else skip value pre

/-- Go `time.Parse("2006-01-02", value)`, chunk by chunk: `stdLongYear`, the literal `-`,
`stdZeroMonth`, the literal `-`, `stdZeroDay`, no extra text, then the range checks.
`none` stands for every error return, which in Go carries the zero `Time{}`. -/
def parseChars (value : List Char) : Option Time :=
  if value.length < 4 || !isDigit value 0 then none
  else
    match atoi (value.take 4) with
    | none => none
    | some year =>
      match skip (value.drop 4) ['-'] with
      | none => none
      | some value =>
        match getnum value true with
        | none => none
        | some (month, value) =>
          if month ≤ 0 ∨ 12 < month then none
          else
            match skip value ['-'] with
            | none => none
            | some value =>
              match getnum value true with
              | none => none
              | some (day, value) =>
                if value.length ≠ 0 then none
                else if day < 1 ∨ day > daysIn month year then none
                else some (Date year month day)

/-- Go `time.Parse("2006-01-02", value)` on a string. -/
def timeParse (value : String) : Option Time := parseChars value.toList

/-! ## The decoded response and the aggregation loop -/

/-- One element of `ContributionDays` in `GraphQLResponse`. -/
structure ContributionDay where
  Date : String
  ContributionCount : Int
deriving DecidableEq

/-- One element of `Weeks` in `GraphQLResponse`; the decoded response itself is the list
`gqlResp.Data.User.ContributionsCollection.ContributionCalendar.Weeks`. -/
structure Week where
  ContributionDays : List ContributionDay
deriving DecidableEq

/-- Go `map[int]int`: the value stored under a key, if the key is present. -/
abbrev ContribMap := Int → Option Int

/-- The map of `make(map[int]int)`. -/
def ContribMap.empty : ContribMap := fun _ => none

/-- The assignment `m[k] = v`. -/
def ContribMap.set (m : ContribMap) (k v : Int) : ContribMap :=
  fun j => if j = k then some v else m j

/-- The read `m[k]`: the zero value for an absent key. -/
def ContribMap.get (m : ContribMap) (k : Int) : Int := (m k).getD 0

/-- The result `t` of `t, _ := time.Parse("2006-01-02", d.Date)`: the parsed time, or the
zero `Time{}` that comes with an error. -/
def parsedTime (date : String) : Time := (timeParse date).getD Time.zero

/-- The body of the inner aggregation loop of `main` for one contribution day. -/
def aggregateDay (year month : Int) (contribMap : ContribMap) (d : ContributionDay) :
    ContribMap :=
  let t := parsedTime d.Date
  if t.Year = year ∧ t.Month = month then
    ContribMap.set contribMap t.Day d.ContributionCount
  else contribMap

/-- The aggregation loop of `main`: weeks in order, days within each week in order. -/
def aggregate (year month : Int) (weeks : List Week) : ContribMap :=
  weeks.foldl
    (fun contribMap week => week.ContributionDays.foldl (aggregateDay year month) contribMap)
    ContribMap.empty

/-! ## Rendering -/

/-- Go `Month.String`. -/
def monthName (month : Int) : String :=
  if 1 ≤ month ∧ month ≤ 12 then
    ["January", "February", "March", "April", "May", "June", "July", "August", "September",
      "October", "November", "December"].getD (month - 1).toNat ""
  else "%!Month(" ++ toString (month % 2 ^ 64) ++ ")"

/-- The text of `fmt.Printf("\nContributions: %s %d\n\n", month, year)`. -/
def headerLine (year month : Int) : String :=
  "\nContributions: " ++ monthName month ++ " " ++ toString year ++ "\n\n"

/-- The text of `fmt.Println("Mon Tue Wed Thu Fri Sat Sun")`. -/
def weekdayLine : String := "Mon Tue Wed Thu Fri Sat Sun\n"

/-- The blank placeholder printed by the padding loop. -/
def placeholder : String := "    "

/-- The separator printed after every block. -/
def separator : String := "  "

/-- The text of `fmt.Println()`. -/
def newline : String := "\n"

/-- The loop `for i := 1; i < startWeekday; i++ { fmt.Print("    ") }`, appending each
printed text to `out`.  The first argument bounds the number of iterations; the loop
needs `startWeekday - i` of them (`padLoop_eq`). -/
def padLoop (startWeekday : Int) : Nat → Int → List String → List String
  | 0, _, out => out
  | fuel + 1, i, out =>
    if i < startWeekday then padLoop startWeekday fuel (i + 1) (out ++ [placeholder])
    else out

/-- The loop `for day := 1; day <= daysInMonth; day++ { ... }` of `main`, appending each
printed text to `out`.  The first argument bounds the number of iterations; the loop
needs `daysInMonth + 1 - day` of them (`dayLoop_eq`). -/
def dayLoop (contribMap : ContribMap) (startWeekday daysInMonth : Int) :
    Nat → Int → List String → List String
  | 0, _, out => out
  | fuel + 1, day, out =>
    if day ≤ daysInMonth then
      let count := ContribMap.get contribMap day
      let block := colorForCount count
      let out := out ++ [block]
      let out := out ++ [separator]
      let weekday := (startWeekday + day - 1) % 7
      let out := if weekday = 0 then out ++ [newline] else out
      dayLoop contribMap startWeekday daysInMonth fuel (day + 1) out
    else out

/-- The value of `startWeekday` after `if startWeekday == 0 { startWeekday = 7 }`. -/
def startWeekdayOf (firstDay : ZonedTime) : Int :=
  let startWeekday := firstDay.Weekday
  if startWeekday = 0 then 7 else startWeekday

/-- The value `firstDay := time.Date(year, month, 1, 0, 0, 0, 0, time.Local)`, with
`loc` for `time.Local`. -/
def firstDayOf (loc : Location) (year month : Int) : ZonedTime :=
  DateIn year month 1 0 0 0 loc

/-- The value `daysInMonth := firstDay.AddDate(0, 1, -1).Day()`. -/
def daysInMonthOf (loc : Location) (year month : Int) : Int :=
  ((firstDayOf loc year month).AddDate 0 1 (-1)).Day

/-- The grid part of `main` (padding loop, then day loop): the texts printed, in order. -/
def renderGrid (loc : Location) (year month : Int) (contribMap : ContribMap) :
    List String :=
  let firstDay := firstDayOf loc year month
  let daysInMonth := daysInMonthOf loc year month
  let startWeekday := startWeekdayOf firstDay
  let out := padLoop startWeekday startWeekday.toNat 1 []
  dayLoop contribMap startWeekday daysInMonth daysInMonth.toNat 1 out

/-- Everything `main` prints to standard output for a day-count map: the two header
lines, then the grid. -/
def render (loc : Location) (year month : Int) (contribMap : ContribMap) : List String :=
  [headerLine year month, weekdayLine] ++ renderGrid loc year month contribMap

/-- Aggregation followed by rendering, as `main` runs them on the decoded response. -/
def calendar (loc : Location) (year month : Int) (weeks : List Week) : List String :=
  render loc year month (aggregate year month weeks)

/-! ## The program -/

/-- The fixed GraphQL query of `main`. -/
def query : String :=
  "\n\tquery($userName:String!)\x7b\n\t  user(login:$userName)\x7b\n\t\tcontributionsCollection \x7b\n\t\t  contributionCalendar \x7b\n\t\t\tweeks \x7b\n\t\t\t  contributionDays \x7b\n\t\t\t\tdate\n\t\t\t\tcontributionCount\n\t\t\t  \x7d\n\t\t\t\x7d\n\t\t  \x7d\n\t\t\x7d\n\t  \x7d\n\t\x7d"

/-- The constant `githubAPI`. -/
def githubAPI : String := "https://api.github.com/graphql"

/-- The struct `GraphQLRequest`; `Variables` holds the single binding `userName`. -/
structure GraphQLRequest where
  Query : String
  userName : String
deriving DecidableEq

/-- The HTTP request built by `main`: method, URL, the `Authorization` and `Content-Type`
headers, and the body that is marshalled to JSON. -/
structure Request where
  method : String
  url : String
  authorization : String
  contentType : String
  body : GraphQLRequest
deriving DecidableEq

/-- What a run of `main` does to the outside, in order. -/
inductive Event where
  | logPrintln (msg : String)
  | logFatal (msg : String)
  | httpDo (req : Request)
  | panic (msg : String)
  | print (text : String)
deriving DecidableEq

/-- What `main` reads from the outside: the error of `godotenv.Load(".env")` if any, the
two environment values after loading, the outcome of `client.Do` (a transport error, or a
body that decodes to the weeks or fails to decode), the year and month of `time.Now()`,
and the location `time.Local`. -/
structure World where
  dotenvErr : Option String
  token : String
  username : String
  send : Request → Except String (Except String (List Week))
  year : Int
  month : Int
  loc : Location

/-- The function `main` of `main.go`: the events of a run.  `log.Fatal` and `panic` end
the run, so they are last when they occur. -/
def main (w : World) : List Event :=
  let log :=
    match w.dotenvErr with
    | some err => [Event.logPrintln ("❌ Can\x27t load the .env file: " ++ err)]
    | none => []
  if w.token = "" then
    log ++ [Event.logFatal "❌ GITHUB_TOKEN is not defined in the .env file"]
  else
    let reqBody : GraphQLRequest := ⟨query, w.username⟩
    let req : Request :=
      ⟨"POST", githubAPI, "bearer " ++ w.token, "application/json", reqBody⟩
    match w.send req with
    | .error err => log ++ [Event.httpDo req, Event.panic err]
    | .ok (.error err) => log ++ [Event.httpDo req, Event.panic err]
    | .ok (.ok weeks) =>
      log ++ [Event.httpDo req] ++ (calendar w.loc w.year w.month weeks).map Event.print

/-! ## ISO dates, from the wording of the specification -/

/-- A decimal digit character. -/
def isDigitChar (c : Char) : Bool := decide ('0' ≤ c) && decide (c ≤ '9')

/-- Gregorian leap year: divisible by 4 and not by 100, or divisible by 400. -/
def gregorianLeap (year : Int) : Bool :=
  (year % 4 == 0 && year % 100 != 0) || year % 400 == 0

/-- Gregorian length of a month: 31, 30, or 28/29 for February. -/
def gregorianLength (year month : Int) : Int :=
  if month = 2 then (if gregorianLeap year then 29 else 28)
  else if month = 4 ∨ month = 6 ∨ month = 9 ∨ month = 11 then 30
  else 31

/-- The fields of a valid `YYYY-MM-DD` date: four digits, a dash, two digits, a dash, two
digits, with the month in 1..12 and the day within the month; `none` for any other text. -/
def isoDateChars : List Char → Option (Int × Int × Int)
  | [y1, y2, y3, y4, s1, m1, m2, s2, d1, d2] =>
    if isDigitChar y1 && isDigitChar y2 && isDigitChar y3 && isDigitChar y4
        && s1 == '-' && isDigitChar m1 && isDigitChar m2
        && s2 == '-' && isDigitChar d1 && isDigitChar d2 then
      let year := 1000 * digitVal y1 + 100 * digitVal y2 + 10 * digitVal y3 + digitVal y4
      let month := 10 * digitVal m1 + digitVal m2
      let day := 10 * digitVal d1 + digitVal d2
      if 1 ≤ month ∧ month ≤ 12 ∧ 1 ≤ day ∧ day ≤ gregorianLength year month then
        some (year, month, day)
      else none
    else none
  | _ => none

/-- The fields of a valid `YYYY-MM-DD` date string. -/
def isoDate (s : String) : Option (Int × Int × Int) := isoDateChars s.toList

/-! ## Notions used to state the properties -/

/-- The contribution days of a response in traversal order. -/
def entries (weeks : List Week) : List ContributionDay :=
  weeks.flatMap (fun week => week.ContributionDays)

/-- The response with every day removed whose date string is not a valid ISO date. -/
def removeMalformed (weeks : List Week) : List Week :=
  weeks.map (fun week => ⟨week.ContributionDays.filter (fun d => (isoDate d.Date).isSome)⟩)

/-- A valid ISO date whose year or month differs from the target. -/
def outOfMonth (year month : Int) (d : ContributionDay) : Bool :=
  match isoDate d.Date with
  | some (y, m, _) => y != year || m != month
  | none => false

/-- The response with every out-of-month day removed. -/
def removeOutOfMonth (year month : Int) (weeks : List Week) : List Week :=
  weeks.map (fun week => ⟨week.ContributionDays.filter (fun d => !outOfMonth year month d)⟩)

/-- The date fields the aggregation loop sees for a date string: those of the ISO date,
or those of the zero time for any other text. -/
def seenDate (date : String) : Int × Int × Int := (isoDate date).getD (1, 1, 1)

/-- Weekday numbered Monday = 1 .. Sunday = 7, from Go's Sunday = 0 .. Saturday = 6. -/
def normalizedWeekday (weekday : Int) : Int := (weekday + 6) % 7 + 1

/-- The `n` consecutive days starting with `day`. -/
def daysFrom (day : Int) : Nat → List Int
  | 0 => []
  | n + 1 => day :: daysFrom (day + 1) n

/-- The days `1 .. n` of a month, in ascending order. -/
def monthDays (n : Int) : List Int := daysFrom 1 n.toNat

/-- The texts of one day in a grid with `placeholders` leading placeholders: the block of
the day's count, the separator, and a newline when the day fills the 7th column. -/
def dayTexts (contribMap : ContribMap) (placeholders : Int) (d : Int) : List String :=
  [colorForCount (ContribMap.get contribMap d), separator]
    ++ (if (placeholders + d) % 7 = 0 then [newline] else [])

/-- The number of cells (placeholders and blocks) of each grid row, rows being ended by
a newline; separators are not cells. -/
def rowCells : List String → Nat → List Nat
  | [], n => [n]
  | c :: rest, n =>
    if c = newline then n :: rowCells rest 0
    else if c = separator then rowCells rest n
    else rowCells rest (n + 1)

/-- The output of the end-to-end example of the specification: the header for March
2024, the weekday line, 4 placeholders, then the 31 days, day 2 in the medium-green band
and every other day in the no-contribution band, with a newline after each Sunday. -/
def marchExample : List String :=
  ["\nContributions: March 2024\n\n", "Mon Tue Wed Thu Fri Sat Sun\n"]
    ++ List.replicate 4 "    "
    ++ (monthDays 31).flatMap (fun d =>
        [if d = 2 then "\x1b[48;5;34m  \x1b[0m" else "\x1b[48;5;236m  \x1b[0m", "  "]
          ++ (if d = 3 ∨ d = 10 ∨ d = 17 ∨ d = 24 ∨ d = 31 then ["\n"] else []))

/-- The offsets of `Atlantic/Azores` in the tz database from 2023-10-29 to 2024-10-27:
UTC-1 from 2023-10-29 01:00 UTC, UTC+0 from 2024-03-31 01:00 UTC, when the local clock
goes from 00:00 to 01:00, and UTC-1 again from 2024-10-27 01:00 UTC. -/
def azores : Location :=
  ⟨0, [(1698541200, -3600), (1711846800, 0), (1729990800, -3600)]⟩

/-- The offsets of `America/Asuncion` in the tz database from 2023-03-26 to 2024-03-24:
UTC-4 from 2023-03-26 03:00 UTC, UTC-3 from 2023-10-01 04:00 UTC, when the local clock
goes from 00:00 to 01:00, and UTC-4 again from 2024-03-24 03:00 UTC. -/
def asuncion : Location :=
  ⟨-10800, [(1679799600, -14400), (1696132800, -10800), (1711249200, -14400)]⟩

/-! ## Auxiliary calendar functions -/

/-- Zero-based day of the year of day `d` of month `m`, as `Date` adds it up. -/
def ydayOf (leap : Bool) (m d : Int) : Int :=
  (if leap && m ≥ 3 then daysBeforeAt (m - 1) + 1 else daysBeforeAt (m - 1)) + (d - 1)

/-- Length of month `m` given the leap flag, as `daysIn` computes it. -/
def monthLen (leap : Bool) (m : Int) : Int :=
  if m == 2 && leap then 29 else daysBeforeAt m - daysBeforeAt (m - 1)


/-! ## Calendar arithmetic -/

theorem monthDay_table : ∀ leap : Bool, ∀ m : Fin 13, ∀ d : Fin 32,
    1 ≤ m.val → 1 ≤ d.val → (d.val : Int) ≤ monthLen leap (m.val : Int) →
      monthDay leap (ydayOf leap m.val d.val) = ((m.val : Int), (d.val : Int))
        ∧ 0 ≤ ydayOf leap m.val d.val
        ∧ ydayOf leap m.val d.val < (if leap then 366 else 365) := by
  decide

theorem monthLen_table : ∀ leap : Bool, ∀ m : Fin 13, 1 ≤ m.val →
    28 ≤ monthLen leap (m.val : Int) ∧ monthLen leap (m.val : Int) ≤ 31 := by
  decide

theorem cycle_ediv (n k rest : Int) (h0 : 0 ≤ rest) (h1 : rest < n) :
    (n * k + rest) / n = k := by
  have hn : n ≠ 0 := by omega
  rw [Int.add_comm, Int.add_mul_ediv_left _ _ hn, Int.ediv_eq_zero_of_lt h0 h1, Int.zero_add]

theorem absYear_cycles (a c q r yd : Int)
    (hc0 : 0 ≤ c) (hc3 : c ≤ 3) (hq0 : 0 ≤ q) (hq : q ≤ 24) (hr0 : 0 ≤ r) (hr : r ≤ 3)
    (hy0 : 0 ≤ yd) (hy : yd < 365 ∨ (yd = 365 ∧ r = 3 ∧ (q < 24 ∨ c = 3))) :
    absYear (146097 * a + 36524 * c + 1461 * q + 365 * r + yd)
      = (400 * a + 100 * c + 4 * q + r + 1, yd) := by
  have e1 : (146097 * a + 36524 * c + 1461 * q + 365 * r + yd) / 146097 = a := by
    have := cycle_ediv 146097 a (36524 * c + 1461 * q + 365 * r + yd) (by omega) (by omega)
    have h : 146097 * a + 36524 * c + 1461 * q + 365 * r + yd
        = 146097 * a + (36524 * c + 1461 * q + 365 * r + yd) := by ring
    rw [h]; exact this
  have e2 : (36524 * c + 1461 * q + 365 * r + yd) / 36524
      - (36524 * c + 1461 * q + 365 * r + yd) / 36524 / 4 = c := by
    by_cases hlast : 1461 * q + 365 * r + yd < 36524
    · have := cycle_ediv 36524 c (1461 * q + 365 * r + yd) (by omega) hlast
      have h' : (36524 * c + 1461 * q + 365 * r + yd) / 36524 = c := by
        have h : 36524 * c + 1461 * q + 365 * r + yd
            = 36524 * c + (1461 * q + 365 * r + yd) := by ring
        rw [h]; exact this
      rw [h']; omega
    · have hq24 : q = 24 := by omega
      have hr3 : r = 3 := by omega
      have hyd : yd = 365 := by omega
      have hc : c = 3 := by omega
      subst hq24 hr3 hyd hc
      decide
  have e3 : (1461 * q + 365 * r + yd) / 1461 = q := by
    have := cycle_ediv 1461 q (365 * r + yd) (by omega) (by omega)
    have h : 1461 * q + 365 * r + yd = 1461 * q + (365 * r + yd) := by ring
    rw [h]; exact this
  have e4 : (365 * r + yd) / 365 - (365 * r + yd) / 365 / 4 = r := by
    by_cases hlast : yd < 365
    · have h' := cycle_ediv 365 r yd hy0 hlast
      rw [h']; omega
    · have hr3 : r = 3 := by omega
      have hyd : yd = 365 := by omega
      subst hr3 hyd
      decide
  simp only [absYear]
  have s1 : 146097 * a + 36524 * c + 1461 * q + 365 * r + yd - 146097 * a
      = 36524 * c + 1461 * q + 365 * r + yd := by ring
  rw [e1, s1, e2]
  have s2 : 36524 * c + 1461 * q + 365 * r + yd - 36524 * c = 1461 * q + 365 * r + yd := by ring
  rw [s2, e3]
  have s3 : 1461 * q + 365 * r + yd - 1461 * q = 365 * r + yd := by ring
  rw [s3, e4]
  have s4 : 365 * r + yd - 365 * r = yd := by ring
  rw [s4]

theorem leap_cycles (year a c q r : Int) (hc0 : 0 ≤ c) (hc3 : c ≤ 3) (hq0 : 0 ≤ q)
    (hq : q ≤ 24) (hr0 : 0 ≤ r) (hr : r ≤ 3)
    (hyear : year = 400 * a + 100 * c + 4 * q + r + 1) :
    isLeap year = true ↔ (r = 3 ∧ (q < 24 ∨ c = 3)) := by
  simp only [isLeap, Bool.and_eq_true, Bool.or_eq_true, beq_iff_eq, bne_iff_ne, ne_eq]
  omega

theorem daysSinceEpoch_cycles (year : Int) :
    ∃ a c q r : Int, 0 ≤ c ∧ c ≤ 3 ∧ 0 ≤ q ∧ q ≤ 24 ∧ 0 ≤ r ∧ r ≤ 3 ∧
      year = 400 * a + 100 * c + 4 * q + r + 1 ∧
      daysSinceEpoch year = 146097 * a + 36524 * c + 1461 * q + 365 * r := by
  simp only [daysSinceEpoch]
  generalize ha : (year - 1) / 400 = a
  generalize hc : (year - 1 - 400 * a) / 100 = c
  generalize hq : (year - 1 - 400 * a - 100 * c) / 4 = q
  exact ⟨a, c, q, year - 1 - 400 * a - 100 * c - 4 * q, by omega, by omega, by omega, by omega,
    by omega, by omega, by omega, rfl⟩

theorem absYear_daysSinceEpoch (year yd : Int) (h0 : 0 ≤ yd)
    (h1 : yd < if isLeap year then 366 else 365) :
    absYear (daysSinceEpoch year + yd) = (year, yd) := by
  obtain ⟨a, c, q, r, hc0, hc3, hq0, hq, hr0, hr, hyear, hd⟩ := daysSinceEpoch_cycles year
  have hleap := leap_cycles year a c q r hc0 hc3 hq0 hq hr0 hr hyear
  have hy : yd < 365 ∨ (yd = 365 ∧ r = 3 ∧ (q < 24 ∨ c = 3)) := by
    by_cases hl : isLeap year = true
    · rw [if_pos hl] at h1
      have h2 := hleap.mp hl
      clear hleap hd hyear hl
      omega
    · rw [if_neg hl] at h1
      exact Or.inl h1
  rw [hd, absYear_cycles a c q r yd hc0 hc3 hq0 hq hr0 hr h0 hy, ← hyear]


theorem daysIn_eq_monthLen (m year : Int) : daysIn m year = monthLen (isLeap year) m := rfl

theorem monthLen_bounds (leap : Bool) (m : Int) (h1 : 1 ≤ m) (h12 : m ≤ 12) :
    28 ≤ monthLen leap m ∧ monthLen leap m ≤ 31 := by
  have h := monthLen_table leap ⟨m.toNat, by omega⟩ (by show 1 ≤ m.toNat; omega)
  have e : ((m.toNat : Nat) : Int) = m := Int.toNat_of_nonneg (by omega)
  simp only [e] at h
  exact h

theorem monthDay_ydayOf (leap : Bool) (m d : Int) (hm1 : 1 ≤ m) (hm12 : m ≤ 12)
    (hd1 : 1 ≤ d) (hd : d ≤ monthLen leap m) :
    monthDay leap (ydayOf leap m d) = (m, d) ∧ 0 ≤ ydayOf leap m d
      ∧ ydayOf leap m d < (if leap then 366 else 365) := by
  have hlen := (monthLen_bounds leap m hm1 hm12).2
  have em : ((m.toNat : Nat) : Int) = m := Int.toNat_of_nonneg (by omega)
  have ed : ((d.toNat : Nat) : Int) = d := Int.toNat_of_nonneg (by omega)
  have h := monthDay_table leap ⟨m.toNat, by omega⟩ ⟨d.toNat, by omega⟩
    (by show 1 ≤ m.toNat; omega) (by show 1 ≤ d.toNat; omega)
  simp only [em, ed] at h
  exact h hd

theorem norm_month (year m : Int) (h0 : 0 ≤ m) (h12 : m < 12) : norm year m 12 = (year, m) := by
  have hneg : ¬ m < 0 := by omega
  have hge : ¬ m ≥ 12 := by omega
  simp only [norm, if_neg hneg, if_neg hge]

theorem Date_abs (year month day : Int) (h1 : 1 ≤ month) (h12 : month ≤ 12) :
    (Date year month day).abs = daysSinceEpoch year + ydayOf (isLeap year) month day := by
  simp only [Date, norm_month year (month - 1) (by omega) (by omega), ydayOf]
  have e : month - 1 + 1 = month := by omega
  simp only [e]
  split <;> omega

/-- Reading back a civil date built by `Date`. -/
theorem absDate_Date (year month day : Int) (h1 : 1 ≤ month) (h12 : month ≤ 12)
    (hd1 : 1 ≤ day) (hd : day ≤ daysIn month year) :
    absDate (Date year month day).abs = (year, month, day) := by
  rw [Date_abs year month day h1 h12]
  rw [daysIn_eq_monthLen] at hd
  obtain ⟨hmd, hy0, hy1⟩ := monthDay_ydayOf (isLeap year) month day h1 h12 hd1 hd
  simp only [absDate, absYear_daysSinceEpoch year _ hy0 hy1, hmd]

theorem daysSinceEpoch_succ (year : Int) :
    daysSinceEpoch (year + 1) = daysSinceEpoch year + (if isLeap year then 366 else 365) := by
  obtain ⟨a, c, q, r, hc0, hc3, hq0, hq, hr0, hr, hyear, hd⟩ := daysSinceEpoch_cycles year
  obtain ⟨a2, c2, q2, r2, hc02, hc32, hq02, hq2, hr02, hr2, hyear2, hd2⟩ :=
    daysSinceEpoch_cycles (year + 1)
  have hleap := leap_cycles year a c q r hc0 hc3 hq0 hq hr0 hr hyear
  rw [hd, hd2]
  by_cases hl : isLeap year = true
  · rw [if_pos hl]
    have h2 := hleap.mp hl
    clear hleap hd hd2 hl
    omega
  · rw [if_neg hl]
    have h2 : ¬ (r = 3 ∧ (q < 24 ∨ c = 3)) := fun h => hl (hleap.mpr h)
    clear hleap hd hd2 hl
    omega


/-! ## The parser accepts exactly the ISO dates -/

theorem digitVal_bounds (c : Char) (h : isDigitChar c = true) :
    0 ≤ digitVal c ∧ digitVal c ≤ 9 := by
  simp only [isDigitChar, Bool.and_eq_true, decide_eq_true_eq] at h
  have h1 : (48 : Nat) ≤ c.toNat := h.1
  have h2 : c.toNat ≤ (57 : Nat) := h.2
  simp only [digitVal]
  omega

theorem not_digit_iff (c : Char) : (c < '0' ∨ c > '9') ↔ isDigitChar c = false := by
  simp only [isDigitChar, Bool.and_eq_false_iff, decide_eq_false_iff_not, Char.not_le]

theorem leadingInt_step (c : Char) (s : List Char) (x : Int) (hc : isDigitChar c = true)
    (h0 : 0 ≤ x) (hx : x ≤ 9999) :
    leadingInt (c :: s) x = leadingInt s (x * 10 + digitVal c) := by
  have hb := digitVal_bounds c hc
  have hn : ¬ (c < '0' ∨ c > '9') := by
    rw [not_digit_iff]; simp [hc]
  have h63 : ¬ x > 2 ^ 63 / 10 := by norm_num; omega
  have h64 : ¬ x * 10 + digitVal c > 2 ^ 63 := by norm_num; omega
  simp only [leadingInt, if_neg hn, if_neg h63, if_neg h64]

theorem leadingInt_stop (c : Char) (s : List Char) (x : Int) (hc : isDigitChar c = false) :
    leadingInt (c :: s) x = some (x, c :: s) := by
  have hn : (c < '0' ∨ c > '9') := (not_digit_iff c).mpr hc
  simp only [leadingInt, if_pos hn]


theorem atoi_four (c0 c1 c2 c3 : Char) (h0 : isDigitChar c0 = true) :
    atoi [c0, c1, c2, c3]
      = if isDigitChar c1 && isDigitChar c2 && isDigitChar c3 then
          some (1000 * digitVal c0 + 100 * digitVal c1 + 10 * digitVal c2 + digitVal c3)
        else none := by
  have hm : c0 ≠ '-' := by
    intro h; subst h; revert h0; decide
  have hp : c0 ≠ '+' := by
    intro h; subst h; revert h0; decide
  have b0 := digitVal_bounds c0 h0
  have hsign : (match [c0, c1, c2, c3] with
      | '-' :: r => (true, r)
      | '+' :: r => (false, r)
      | _ => (false, [c0, c1, c2, c3])) = (false, [c0, c1, c2, c3]) := by
    split
    · rename_i h; injection h with h1 _; exact absurd h1 hm
    · rename_i h; injection h with h1 _; exact absurd h1 hp
    · rfl
  simp only [atoi, hsign]
  rw [leadingInt_step c0 _ 0 h0 (by omega) (by omega)]
  by_cases h1 : isDigitChar c1 = true
  · have b1 := digitVal_bounds c1 h1
    rw [leadingInt_step c1 _ _ h1 (by omega) (by omega)]
    by_cases h2 : isDigitChar c2 = true
    · have b2 := digitVal_bounds c2 h2
      rw [leadingInt_step c2 _ _ h2 (by omega) (by omega)]
      by_cases h3 : isDigitChar c3 = true
      · have b3 := digitVal_bounds c3 h3
        rw [leadingInt_step c3 _ _ h3 (by omega) (by omega)]
        simp only [leadingInt, h1, h2, h3, Bool.and_self, if_true, List.length_nil,
          gt_iff_lt, lt_self_iff_false, if_false, Bool.false_eq_true]
        congr 1; ring
      · simp only [Bool.not_eq_true] at h3
        rw [leadingInt_stop c3 _ _ h3]
        simp [h3]
    · simp only [Bool.not_eq_true] at h2
      rw [leadingInt_stop c2 _ _ h2]
      simp [h2]
  · simp only [Bool.not_eq_true] at h1
    rw [leadingInt_stop c1 _ _ h1]
    simp [h1]


theorem isDigit_zero (c : Char) (l : List Char) : isDigit (c :: l) 0 = isDigitChar c := rfl

theorem isDigit_one (a c : Char) (l : List Char) : isDigit (a :: c :: l) 1 = isDigitChar c := rfl

theorem getnum_nil : getnum [] true = none := rfl

theorem getnum_one (a : Char) : getnum [a] true = none := by
  simp [getnum, isDigit]

theorem getnum_two (a b : Char) (l : List Char) :
    getnum (a :: b :: l) true
      = if isDigitChar a && isDigitChar b then some (digitVal a * 10 + digitVal b, l)
        else none := by
  simp only [getnum, isDigit_zero, isDigit_one]
  cases isDigitChar a <;> cases isDigitChar b <;> simp

theorem skip_nil : skip [] ['-'] = none := rfl

theorem skip_cons (c : Char) (l : List Char) :
    skip (c :: l) ['-'] = if c = '-' then some l else none := by
  simp only [skip]
  by_cases h : c = '-' <;> simp [h]

theorem gregorianLength_eq_daysIn (year month : Int) (h1 : 1 ≤ month) (h12 : month ≤ 12) :
    gregorianLength year month = daysIn month year := by
  have hl : gregorianLeap year = isLeap year := by
    rw [Bool.eq_iff_iff]
    simp only [gregorianLeap, isLeap, Bool.or_eq_true, Bool.and_eq_true, beq_iff_eq,
      bne_iff_ne, ne_eq]
    omega
  simp only [gregorianLength, daysIn, hl]
  interval_cases month <;> cases isLeap year <;> decide


theorem getnum_digits (a b : Char) (l : List Char) (ha : isDigitChar a = true)
    (hb : isDigitChar b = true) :
    getnum (a :: b :: l) true = some (10 * digitVal a + digitVal b, l) := by
  rw [getnum_two, ha, hb]
  simp only [Bool.and_self, if_true]
  congr 2; ring

theorem skip_dash (l : List Char) : skip ('-' :: l) ['-'] = some l := by
  simp [skip]

theorem parseChars_ten (y1 y2 y3 y4 s1 m1 m2 s2 d1 d2 : Char) (rest : List Char) :
    parseChars (y1 :: y2 :: y3 :: y4 :: s1 :: m1 :: m2 :: s2 :: d1 :: d2 :: rest)
      = if rest.length ≠ 0 then none
        else (isoDateChars [y1, y2, y3, y4, s1, m1, m2, s2, d1, d2]).map
          (fun p => Date p.1 p.2.1 p.2.2) := by
  rcases Bool.eq_false_or_eq_true (isDigitChar y1) with hy1 | hy1
  swap
  · simp [parseChars, isoDateChars, isDigit_zero, hy1]
  rcases Bool.eq_false_or_eq_true (isDigitChar y2) with hy2 | hy2
  swap
  · simp [parseChars, isoDateChars, isDigit_zero, atoi_four y1 y2 y3 y4 hy1, hy1, hy2]
  rcases Bool.eq_false_or_eq_true (isDigitChar y3) with hy3 | hy3
  swap
  · simp [parseChars, isoDateChars, isDigit_zero, atoi_four y1 y2 y3 y4 hy1, hy1, hy2, hy3]
  rcases Bool.eq_false_or_eq_true (isDigitChar y4) with hy4 | hy4
  swap
  · simp [parseChars, isoDateChars, isDigit_zero, atoi_four y1 y2 y3 y4 hy1, hy1, hy2, hy3, hy4]
  by_cases hs1 : s1 = '-'
  swap
  · simp [parseChars, isoDateChars, isDigit_zero, atoi_four y1 y2 y3 y4 hy1, hy1, hy2, hy3, hy4,
      skip_cons, hs1]
  subst hs1
  rcases Bool.eq_false_or_eq_true (isDigitChar m1) with hm1 | hm1
  swap
  · simp [parseChars, isoDateChars, isDigit_zero, atoi_four y1 y2 y3 y4 hy1, hy1, hy2, hy3, hy4,
      skip_cons, getnum_two, hm1]
  rcases Bool.eq_false_or_eq_true (isDigitChar m2) with hm2 | hm2
  swap
  · simp [parseChars, isoDateChars, isDigit_zero, atoi_four y1 y2 y3 y4 hy1, hy1, hy2, hy3, hy4,
      skip_cons, getnum_two, hm1, hm2]
  have bm1 := digitVal_bounds m1 hm1
  have bm2 := digitVal_bounds m2 hm2
  have hlen : ¬ (rest.length + 1 + 1 + 1 + 1 + 1 + 1 + 1 + 1 + 1 + 1 < 4) := by omega
  have hyear : atoi [y1, y2, y3, y4]
      = some (1000 * digitVal y1 + 100 * digitVal y2 + 10 * digitVal y3 + digitVal y4) := by
    rw [atoi_four y1 y2 y3 y4 hy1, hy2, hy3, hy4]; rfl
  have hhead : parseChars (y1 :: y2 :: y3 :: y4 :: '-' :: m1 :: m2 :: s2 :: d1 :: d2 :: rest)
      = if 10 * digitVal m1 + digitVal m2 ≤ 0 ∨ 12 < 10 * digitVal m1 + digitVal m2 then none
        else
          match skip (s2 :: d1 :: d2 :: rest) ['-'] with
          | none => none
          | some value =>
            match getnum value true with
            | none => none
            | some (day, value) =>
              if value.length ≠ 0 then none
              else if day < 1 ∨ day > daysIn (10 * digitVal m1 + digitVal m2)
                  (1000 * digitVal y1 + 100 * digitVal y2 + 10 * digitVal y3 + digitVal y4)
                then none
              else some (Date (1000 * digitVal y1 + 100 * digitVal y2 + 10 * digitVal y3
                + digitVal y4) (10 * digitVal m1 + digitVal m2) day) := by
    simp only [parseChars, isDigit_zero, List.take_succ_cons, List.take_zero,
      List.drop_succ_cons, List.drop_zero, List.length_cons, hy1, hyear, skip_dash,
      getnum_digits m1 m2 _ hm1 hm2, decide_eq_true_eq, hlen, decide_False, Bool.not_true,
      Bool.or_self, Bool.false_eq_true, if_false]
  rw [hhead]
  by_cases hmr : 10 * digitVal m1 + digitVal m2 ≤ 0 ∨ 12 < 10 * digitVal m1 + digitVal m2
  · have hmr2 : ¬ (1 ≤ 10 * digitVal m1 + digitVal m2 ∧ 10 * digitVal m1 + digitVal m2 ≤ 12
        ∧ 1 ≤ 10 * digitVal d1 + digitVal d2 ∧ 10 * digitVal d1 + digitVal d2
          ≤ gregorianLength (1000 * digitVal y1 + 100 * digitVal y2 + 10 * digitVal y3
            + digitVal y4) (10 * digitVal m1 + digitVal m2)) := by
      omega
    rw [if_pos hmr]
    simp only [isoDateChars, if_neg hmr2]
    simp
  rw [if_neg hmr]
  by_cases hs2 : s2 = '-'
  swap
  · simp [isoDateChars, skip_cons, hs2]
  subst hs2
  rcases Bool.eq_false_or_eq_true (isDigitChar d1) with hd1 | hd1
  swap
  · simp [isoDateChars, skip_dash, getnum_two, hd1]
  rcases Bool.eq_false_or_eq_true (isDigitChar d2) with hd2 | hd2
  swap
  · simp [isoDateChars, skip_dash, getnum_two, hd1, hd2]
  have hg := gregorianLength_eq_daysIn (1000 * digitVal y1 + 100 * digitVal y2
    + 10 * digitVal y3 + digitVal y4) (10 * digitVal m1 + digitVal m2) (by omega) (by omega)
  simp only [skip_dash, getnum_digits d1 d2 _ hd1 hd2]
  by_cases hrest : rest.length ≠ 0
  · simp only [if_pos hrest]
  simp only [if_neg hrest]
  by_cases hdr : 10 * digitVal d1 + digitVal d2 < 1 ∨ 10 * digitVal d1 + digitVal d2
      > daysIn (10 * digitVal m1 + digitVal m2)
        (1000 * digitVal y1 + 100 * digitVal y2 + 10 * digitVal y3 + digitVal y4)
  · have hdr2 : ¬ (1 ≤ 10 * digitVal m1 + digitVal m2 ∧ 10 * digitVal m1 + digitVal m2 ≤ 12
        ∧ 1 ≤ 10 * digitVal d1 + digitVal d2 ∧ 10 * digitVal d1 + digitVal d2
          ≤ gregorianLength (1000 * digitVal y1 + 100 * digitVal y2 + 10 * digitVal y3
            + digitVal y4) (10 * digitVal m1 + digitVal m2)) := by
      rw [hg]; omega
    simp only [isoDateChars, if_pos hdr, if_neg hdr2]
    simp
  · have hdr2 : (1 ≤ 10 * digitVal m1 + digitVal m2 ∧ 10 * digitVal m1 + digitVal m2 ≤ 12
        ∧ 1 ≤ 10 * digitVal d1 + digitVal d2 ∧ 10 * digitVal d1 + digitVal d2
          ≤ gregorianLength (1000 * digitVal y1 + 100 * digitVal y2 + 10 * digitVal y3
            + digitVal y4) (10 * digitVal m1 + digitVal m2)) := by
      rw [hg]; omega
    simp only [isoDateChars, if_neg hdr, if_pos hdr2, hy1, hy2, hy3, hy4, hm1, hm2, hd1, hd2]
    simp


theorem parseChars_len4 (y1 y2 y3 y4 : Char) : parseChars [y1, y2, y3, y4] = none := by
  rcases Bool.eq_false_or_eq_true (isDigitChar y1) with h | h
  swap
  · simp [parseChars, isDigit_zero, h]
  · simp only [parseChars, isDigit_zero, h, atoi_four y1 y2 y3 y4 h, List.take_succ_cons,
      List.take_zero, List.drop_succ_cons, List.drop_zero, List.take_nil]
    iterate 4
      all_goals
        try (split_ifs <;> simp [skip_nil, skip_cons, getnum_nil, getnum_one, getnum_two])

theorem parseChars_len5 (y1 y2 y3 y4 s1 : Char) : parseChars [y1, y2, y3, y4, s1] = none := by
  rcases Bool.eq_false_or_eq_true (isDigitChar y1) with h | h
  swap
  · simp [parseChars, isDigit_zero, h]
  · simp only [parseChars, isDigit_zero, h, atoi_four y1 y2 y3 y4 h, List.take_succ_cons,
      List.take_zero, List.drop_succ_cons, List.drop_zero, List.take_nil]
    iterate 4
      all_goals
        try (split_ifs <;> simp [skip_nil, skip_cons, getnum_nil, getnum_one, getnum_two])

theorem parseChars_len6 (y1 y2 y3 y4 s1 m1 : Char) : parseChars [y1, y2, y3, y4, s1, m1] = none := by
  rcases Bool.eq_false_or_eq_true (isDigitChar y1) with h | h
  swap
  · simp [parseChars, isDigit_zero, h]
  · simp only [parseChars, isDigit_zero, h, atoi_four y1 y2 y3 y4 h, List.take_succ_cons,
      List.take_zero, List.drop_succ_cons, List.drop_zero, List.take_nil]
    iterate 4
      all_goals
        try (split_ifs <;> simp [skip_nil, skip_cons, getnum_nil, getnum_one, getnum_two])

theorem parseChars_len7 (y1 y2 y3 y4 s1 m1 m2 : Char) : parseChars [y1, y2, y3, y4, s1, m1, m2] = none := by
  rcases Bool.eq_false_or_eq_true (isDigitChar y1) with h | h
  swap
  · simp [parseChars, isDigit_zero, h]
  · simp only [parseChars, isDigit_zero, h, atoi_four y1 y2 y3 y4 h, List.take_succ_cons,
      List.take_zero, List.drop_succ_cons, List.drop_zero, List.take_nil]
    iterate 4
      all_goals
        try (split_ifs <;> simp [skip_nil, skip_cons, getnum_nil, getnum_one, getnum_two])

theorem parseChars_len8 (y1 y2 y3 y4 s1 m1 m2 s2 : Char) : parseChars [y1, y2, y3, y4, s1, m1, m2, s2] = none := by
  rcases Bool.eq_false_or_eq_true (isDigitChar y1) with h | h
  swap
  · simp [parseChars, isDigit_zero, h]
  · simp only [parseChars, isDigit_zero, h, atoi_four y1 y2 y3 y4 h, List.take_succ_cons,
      List.take_zero, List.drop_succ_cons, List.drop_zero, List.take_nil]
    iterate 4
      all_goals
        try (intros; split_ifs <;> simp [skip_nil, skip_cons, getnum_nil, getnum_one, getnum_two])

theorem parseChars_len9 (y1 y2 y3 y4 s1 m1 m2 s2 d1 : Char) : parseChars [y1, y2, y3, y4, s1, m1, m2, s2, d1] = none := by
  rcases Bool.eq_false_or_eq_true (isDigitChar y1) with h | h
  swap
  · simp [parseChars, isDigit_zero, h]
  · simp only [parseChars, isDigit_zero, h, atoi_four y1 y2 y3 y4 h, List.take_succ_cons,
      List.take_zero, List.drop_succ_cons, List.drop_zero, List.take_nil]
    iterate 4
      all_goals
        try (intros; split_ifs <;> simp [skip_nil, skip_cons, getnum_nil, getnum_one, getnum_two])

/-- The parser accepts exactly the valid ISO dates and returns the `Date` of their fields. -/
theorem parseChars_eq (l : List Char) :
    parseChars l = (isoDateChars l).map (fun p => Date p.1 p.2.1 p.2.2) := by
  match l with
  | [] => rfl
  | [_] => rfl
  | [_, _] => rfl
  | [_, _, _] => rfl
  | [y1, y2, y3, y4] => rw [parseChars_len4]; rfl
  | [y1, y2, y3, y4, s1] => rw [parseChars_len5]; rfl
  | [y1, y2, y3, y4, s1, m1] => rw [parseChars_len6]; rfl
  | [y1, y2, y3, y4, s1, m1, m2] => rw [parseChars_len7]; rfl
  | [y1, y2, y3, y4, s1, m1, m2, s2] => rw [parseChars_len8]; rfl
  | [y1, y2, y3, y4, s1, m1, m2, s2, d1] => rw [parseChars_len9]; rfl
  | [y1, y2, y3, y4, s1, m1, m2, s2, d1, d2] =>
    rw [parseChars_ten]; rfl
  | y1 :: y2 :: y3 :: y4 :: s1 :: m1 :: m2 :: s2 :: d1 :: d2 :: e :: rest =>
    rw [parseChars_ten]; rfl

theorem timeParse_eq (s : String) :
    timeParse s = (isoDate s).map (fun p => Date p.1 p.2.1 p.2.2) :=
  parseChars_eq s.toList

theorem isoDateChars_valid (l : List Char) (y m d : Int) (h : isoDateChars l = some (y, m, d)) :
    1 ≤ m ∧ m ≤ 12 ∧ 1 ≤ d ∧ d ≤ daysIn m y := by
  match l with
  | [] | [_] | [_, _] | [_, _, _] | [_, _, _, _] | [_, _, _, _, _] | [_, _, _, _, _, _]
  | [_, _, _, _, _, _, _] | [_, _, _, _, _, _, _, _] | [_, _, _, _, _, _, _, _, _] =>
    simp [isoDateChars] at h
  | _ :: _ :: _ :: _ :: _ :: _ :: _ :: _ :: _ :: _ :: _ :: _ => simp [isoDateChars] at h
  | [y1, y2, y3, y4, s1, m1, m2, s2, d1, d2] =>
    simp only [isoDateChars] at h
    split_ifs at h with h1 h2
    simp only [Option.some.injEq, Prod.mk.injEq] at h
    obtain ⟨hy, hm, hd⟩ := h
    subst hy hm hd
    rw [← gregorianLength_eq_daysIn _ _ h2.1 h2.2.1]
    exact h2



/-! ## The first day of the month and the length of the month -/

theorem ydayOf_next (leap : Bool) (m : Int) (h1 : 1 ≤ m) (h11 : m ≤ 11) :
    ydayOf leap (m + 1) 0 = ydayOf leap m (monthLen leap m) := by
  interval_cases m <;> cases leap <;> decide

theorem Date_next_month_zero (year month : Int) (h1 : 1 ≤ month) (h12 : month ≤ 12) :
    Date year (month + 1) 0 = Date year month (daysIn month year) := by
  have hr := Date_abs year month (daysIn month year) h1 h12
  rcases (show month ≤ 11 ∨ month = 12 by omega) with h11 | h
  · have hl := Date_abs year (month + 1) 0 (by omega) (by omega)
    have hy := ydayOf_next (isLeap year) month h1 h11
    rw [daysIn_eq_monthLen] at hr
    have : (Date year (month + 1) 0).abs = (Date year month (monthLen (isLeap year) month)).abs := by
      rw [hl, hr, hy]
    rw [daysIn_eq_monthLen]
    cases hA : Date year (month + 1) 0
    cases hB : Date year month (monthLen (isLeap year) month)
    rw [hA, hB] at this
    simpa using this
  · subst h
    have hn : norm year (12 + 1 - 1) 12 = (year + 1, 0) := by
      simp [norm]
    have hl : (Date year (12 + 1) 0).abs = daysSinceEpoch (year + 1) - 1 := by
      simp only [Date, hn]
      simp [daysBeforeAt, daysBefore]
      omega
    have hd : daysIn 12 year = 31 := by
      simp [daysIn, daysBeforeAt, daysBefore]
    have hy : ydayOf (isLeap year) 12 31 = (if isLeap year then 366 else 365) - 1 := by
      cases isLeap year <;> decide
    rw [hd] at hr ⊢
    have : (Date year (12 + 1) 0).abs = (Date year 12 31).abs := by
      rw [hl, hr, hy, daysSinceEpoch_succ]
      omega
    cases hA : Date year (12 + 1) 0
    cases hB : Date year 12 31
    rw [hA, hB] at this
    simpa using this

/-! ## Local times in a location with a single offset -/

theorem lookup_fixed (loc : Location) (hfix : loc.tx = []) (sec : Int) :
    loc.lookup sec = (loc.firstOffset, lookupAlpha, lookupOmega) := by
  simp only [Location.lookup, hfix, lookupFrom]

theorem norm_zero (hi base : Int) (hb : 0 < base) : norm hi 0 base = (hi, 0) := by
  have hneg : ¬ (0 : Int) < 0 := by omega
  have hge : ¬ (0 : Int) ≥ base := by omega
  simp only [norm, if_neg hneg, if_neg hge]

theorem DateIn_loc (year month day hour min sec : Int) (loc : Location) :
    (DateIn year month day hour min sec loc).loc = loc := rfl

theorem DateIn_midnight_unix (loc : Location) (hfix : loc.tx = []) (year month day : Int) :
    (DateIn year month day 0 0 0 loc).unix
      = (Date year month day).abs * 86400 - unixToInternal - loc.firstOffset := by
  have h60 : norm 0 0 60 = (0, 0) := norm_zero 0 60 (by decide)
  have h24 : norm day 0 24 = (day, 0) := norm_zero day 24 (by decide)
  unfold DateIn Date
  generalize norm year (month - 1) 12 = p
  obtain ⟨y, m⟩ := p
  simp only [h60]
  generalize unixToInternal = u
  generalize daysSinceEpoch y = dse
  generalize daysBeforeAt (m + 1 - 1) = db
  generalize (isLeap y && decide (m + 1 ≥ 3)) = lp
  simp only [h24, lookup_fixed loc hfix]
  by_cases h0 : loc.firstOffset = 0
  · simp only [ne_eq, h0, not_true_eq_false, if_false]
    omega
  · simp only [ne_eq, h0, not_false_eq_true, if_true, ite_self]
    omega

/-- In a location with a single offset, the wall time of a midnight built by `Date` is
that midnight: the day number is the one of the UTC date with the same fields. -/
theorem DateIn_midnight_abs (loc : Location) (hfix : loc.tx = []) (year month day : Int) :
    (DateIn year month day 0 0 0 loc).abs = (Date year month day).abs * 86400 := by
  simp only [ZonedTime.abs, DateIn_loc, lookup_fixed loc hfix,
    DateIn_midnight_unix loc hfix]
  omega

theorem DateIn_midnight_fields (loc : Location) (hfix : loc.tx = []) (year month day : Int) :
    (DateIn year month day 0 0 0 loc).Year = (Date year month day).Year ∧
    (DateIn year month day 0 0 0 loc).Month = (Date year month day).Month ∧
    (DateIn year month day 0 0 0 loc).Day = (Date year month day).Day ∧
    (DateIn year month day 0 0 0 loc).Weekday = (Date year month day).Weekday ∧
    (DateIn year month day 0 0 0 loc).Clock = (0, 0, 0) := by
  have habs := DateIn_midnight_abs loc hfix year month day
  have hdiv : (Date year month day).abs * 86400 / 86400 = (Date year month day).abs :=
    Int.mul_ediv_cancel _ (by decide)
  have hmod : (Date year month day).abs * 86400 % 86400 = 0 := Int.mul_emod_left _ _
  refine ⟨?_, ?_, ?_, ?_, ?_⟩
  · simp only [ZonedTime.Year, Time.Year, habs, hdiv]
  · simp only [ZonedTime.Month, Time.Month, habs, hdiv]
  · simp only [ZonedTime.Day, Time.Day, habs, hdiv]
  · simp only [ZonedTime.Weekday, Time.Weekday, habs]
    omega
  · simp only [ZonedTime.Clock, habs, hmod]
    decide

theorem firstDay_fields (loc : Location) (hfix : loc.tx = []) (year month : Int)
    (h1 : 1 ≤ month) (h12 : month ≤ 12) :
    (firstDayOf loc year month).Year = year ∧ (firstDayOf loc year month).Month = month ∧
      (firstDayOf loc year month).Day = 1 ∧ (firstDayOf loc year month).Clock = (0, 0, 0) ∧
      (firstDayOf loc year month).Weekday = (Date year month 1).Weekday := by
  have hb := monthLen_bounds (isLeap year) month h1 h12
  have hd := absDate_Date year month 1 h1 h12 (by omega) (by rw [daysIn_eq_monthLen]; omega)
  obtain ⟨hy, hm, hday, hw, hc⟩ := DateIn_midnight_fields loc hfix year month 1
  simp only [firstDayOf]
  refine ⟨?_, ?_, ?_, hc, hw⟩
  · rw [hy, Time.Year, hd]
  · rw [hm, Time.Month, hd]
  · rw [hday, Time.Day, hd]

/-- In a location with a single offset, `firstDay.AddDate(0, 1, -1).Day()` is the length
of the month. -/
theorem daysInMonthOf_eq (loc : Location) (hfix : loc.tx = []) (year month : Int)
    (h1 : 1 ≤ month) (h12 : month ≤ 12) :
    daysInMonthOf loc year month = daysIn month year := by
  obtain ⟨hy, hm, hday, hc, _⟩ := firstDay_fields loc hfix year month h1 h12
  have hb := monthLen_bounds (isLeap year) month h1 h12
  have hloc : (firstDayOf loc year month).loc = loc := rfl
  simp only [daysInMonthOf, ZonedTime.AddDate, hy, hm, hday, hc, hloc]
  have e : (1 : Int) + -1 = 0 := by omega
  rw [e, Int.add_zero, (DateIn_midnight_fields loc hfix year (month + 1) 0).2.2.1,
    Date_next_month_zero year month h1 h12, Time.Day,
    absDate_Date year month _ h1 h12 (by rw [daysIn_eq_monthLen]; omega) (le_refl _)]

/-! ## What the aggregation loop sees of a date string -/

theorem zero_fields : absDate Time.zero.abs = (1, 1, 1) := by decide

theorem parsedTime_fields (date : String) :
    absDate (parsedTime date).abs = seenDate date := by
  simp only [parsedTime, seenDate, timeParse_eq]
  cases h : isoDate date with
  | none => exact zero_fields
  | some p =>
    obtain ⟨y, m, d⟩ := p
    obtain ⟨h1, h12, hd1, hd⟩ := isoDateChars_valid _ y m d h
    simp only [Option.map_some', Option.getD_some]
    exact absDate_Date y m d h1 h12 hd1 hd


/-! ## The aggregation loop as a fold over the entries -/

theorem aggregate_eq_foldl (year month : Int) (weeks : List Week) :
    aggregate year month weeks
      = (entries weeks).foldl (aggregateDay year month) ContribMap.empty := by
  simp only [aggregate, entries]
  generalize ContribMap.empty = init
  induction weeks generalizing init with
  | nil => rfl
  | cons w ws ih =>
    simp only [List.foldl_cons, List.flatMap_cons, List.foldl_append]
    exact ih _

theorem aggregateDay_apply (year month : Int) (m : ContribMap) (e : ContributionDay) (k : Int) :
    aggregateDay year month m e k
      = if seenDate e.Date = (year, month, k) then some e.ContributionCount else m k := by
  have hf := parsedTime_fields e.Date
  simp only [aggregateDay, Time.Year, Time.Month, Time.Day, hf]
  obtain ⟨y, mo, d⟩ := seenDate e.Date
  simp only [Prod.mk.injEq]
  by_cases hym : y = year ∧ mo = month
  · rw [if_pos hym]
    simp only [ContribMap.set]
    by_cases hk : k = d
    · rw [if_pos hk, if_pos ⟨hym.1, hym.2, hk.symm⟩]
    · rw [if_neg hk, if_neg (fun h => hk h.2.2.symm)]
  · rw [if_neg hym, if_neg (fun h => hym ⟨h.1, h.2.1⟩)]

theorem foldl_aggregateDay_apply (year month : Int) (es : List ContributionDay)
    (init : ContribMap) (k : Int) :
    es.foldl (aggregateDay year month) init k
      = match (es.filter (fun e => decide (seenDate e.Date = (year, month, k)))).getLast? with
        | some e => some e.ContributionCount
        | none => init k := by
  induction es using List.reverseRecOn with
  | nil => rfl
  | append_singleton es e ih =>
    rw [List.foldl_append, List.foldl_cons, List.foldl_nil, aggregateDay_apply, ih,
      List.filter_append]
    by_cases h : seenDate e.Date = (year, month, k)
    · simp [h]
    · simp [h]

/-- The day-count map at day `k`: the count of the last entry the loop sees as
`(year, month, k)`, if there is one. -/
theorem aggregate_apply (year month : Int) (weeks : List Week) (k : Int) :
    aggregate year month weeks k
      = (((entries weeks).filter
          (fun e => decide (seenDate e.Date = (year, month, k)))).getLast?).map
            (fun e => e.ContributionCount) := by
  rw [aggregate_eq_foldl, foldl_aggregateDay_apply]
  cases ((entries weeks).filter
    (fun e => decide (seenDate e.Date = (year, month, k)))).getLast? <;> rfl

/-! ## The rendering loops -/

theorem padLoop_eq (startWeekday : Int) (fuel : Nat) (i : Int) (out : List String)
    (hfuel : (startWeekday - i).toNat ≤ fuel) :
    padLoop startWeekday fuel i out
      = out ++ List.replicate (startWeekday - i).toNat placeholder := by
  induction fuel generalizing i out with
  | zero =>
    have h0 : (startWeekday - i).toNat = 0 := by omega
    simp [padLoop, h0]
  | succ fuel ih =>
    simp only [padLoop]
    by_cases h : i < startWeekday
    · rw [if_pos h, ih (i + 1) _ (by omega)]
      have e : (startWeekday - i).toNat = (startWeekday - (i + 1)).toNat + 1 := by omega
      rw [e, List.replicate_succ, List.append_assoc]
      rfl
    · rw [if_neg h]
      have h0 : (startWeekday - i).toNat = 0 := by omega
      simp [h0]

theorem dayLoop_eq (contribMap : ContribMap) (startWeekday daysInMonth : Int) (fuel : Nat)
    (day : Int) (out : List String) (hfuel : (daysInMonth + 1 - day).toNat ≤ fuel) :
    dayLoop contribMap startWeekday daysInMonth fuel day out
      = out ++ (daysFrom day (daysInMonth + 1 - day).toNat).flatMap
          (dayTexts contribMap (startWeekday - 1)) := by
  induction fuel generalizing day out with
  | zero =>
    have h0 : (daysInMonth + 1 - day).toNat = 0 := by omega
    simp [dayLoop, h0, daysFrom]
  | succ fuel ih =>
    simp only [dayLoop]
    by_cases h : day ≤ daysInMonth
    · rw [if_pos h, ih (day + 1) _ (by omega)]
      have e : (daysInMonth + 1 - day).toNat = (daysInMonth + 1 - (day + 1)).toNat + 1 := by
        omega
      rw [e, daysFrom, List.flatMap_cons]
      have e2 : (startWeekday + day - 1) % 7 = (startWeekday - 1 + day) % 7 := by
        congr 1; ring
      simp only [dayTexts, e2]
      split <;> simp
    · rw [if_neg h]
      have h0 : (daysInMonth + 1 - day).toNat = 0 := by omega
      simp [h0, daysFrom]

theorem weekday_range (t : ZonedTime) : 0 ≤ t.Weekday ∧ t.Weekday ≤ 6 := by
  simp only [ZonedTime.Weekday]
  omega

theorem startWeekdayOf_eq (t : ZonedTime) :
    startWeekdayOf t = normalizedWeekday t.Weekday := by
  have h := weekday_range t
  simp only [startWeekdayOf, normalizedWeekday]
  split <;> omega

theorem normalizedWeekday_range (t : ZonedTime) :
    1 ≤ normalizedWeekday t.Weekday ∧ normalizedWeekday t.Weekday ≤ 7 := by
  have h := weekday_range t
  simp only [normalizedWeekday]
  omega

/-- The grid in any location: as many placeholders as the normalized weekday of
`firstDay` minus 1, then the texts of the days 1 to `daysInMonth` in ascending order. -/
theorem renderGrid_eq (loc : Location) (year month : Int) (contribMap : ContribMap) :
    renderGrid loc year month contribMap
      = List.replicate (normalizedWeekday (firstDayOf loc year month).Weekday - 1).toNat
          placeholder
        ++ (monthDays (daysInMonthOf loc year month)).flatMap
            (dayTexts contribMap
              (normalizedWeekday (firstDayOf loc year month).Weekday - 1)) := by
  simp only [renderGrid, startWeekdayOf_eq, monthDays]
  rw [padLoop_eq _ _ _ _ (by omega), dayLoop_eq _ _ _ _ _ _ (by omega)]
  have e : (daysInMonthOf loc year month + 1 - 1).toNat
      = (daysInMonthOf loc year month).toNat := by
    congr 1; omega
  rw [e, List.nil_append]

/-! ## Entries of a filtered response -/

theorem entries_removeMalformed (weeks : List Week) :
    entries (removeMalformed weeks)
      = (entries weeks).filter (fun d => (isoDate d.Date).isSome) := by
  induction weeks with
  | nil => rfl
  | cons w ws ih =>
    simp only [entries, removeMalformed, List.map_cons, List.flatMap_cons,
      List.filter_append] at ih ⊢
    rw [ih]

theorem entries_removeOutOfMonth (year month : Int) (weeks : List Week) :
    entries (removeOutOfMonth year month weeks)
      = (entries weeks).filter (fun d => !outOfMonth year month d) := by
  induction weeks with
  | nil => rfl
  | cons w ws ih =>
    simp only [entries, removeOutOfMonth, List.map_cons, List.flatMap_cons,
      List.filter_append] at ih ⊢
    rw [ih]

theorem seenDate_of_outOfMonth (year month k : Int) (e : ContributionDay)
    (h : outOfMonth year month e = true) : seenDate e.Date ≠ (year, month, k) := by
  simp only [outOfMonth] at h
  simp only [seenDate]
  cases hd : isoDate e.Date with
  | none => rw [hd] at h; simp at h
  | some p =>
    obtain ⟨y, m, d⟩ := p
    rw [hd] at h
    simp only [Bool.or_eq_true, bne_iff_ne, ne_eq] at h
    simp only [Option.getD_some, ne_eq, Prod.mk.injEq, not_and]
    intro hy hm
    rcases h with h | h
    · exact absurd hy h
    · exact absurd hm h

theorem seenDate_eq_iff (date : String) (year month k : Int) (h : year ≠ 1 ∨ month ≠ 1) :
    seenDate date = (year, month, k) ↔ isoDate date = some (year, month, k) := by
  simp only [seenDate]
  cases hd : isoDate date with
  | none =>
    simp only [Option.getD_none, Prod.mk.injEq, reduceCtorEq, iff_false, not_and]
    intro hy hm
    omega
  | some p => simp

theorem seenDate_eq_iff_of_valid (date : String) (p : Int × Int × Int)
    (h : (isoDate date).isSome = true) :
    seenDate date = p ↔ isoDate date = some p := by
  simp only [seenDate]
  cases hd : isoDate date with
  | none => rw [hd] at h; simp at h
  | some q => simp

/-! ## Cells and rows of the grid -/

theorem colorForCount_ne (c : Int) :
    colorForCount c ≠ placeholder ∧ colorForCount c ≠ separator ∧ colorForCount c ≠ newline := by
  simp only [colorForCount]
  split_ifs <;> decide

theorem takeWhile_placeholders (p : Nat) (l : List String) :
    (List.replicate p placeholder ++ l).takeWhile (fun c => c == placeholder)
      = List.replicate p placeholder ++ l.takeWhile (fun c => c == placeholder) := by
  induction p with
  | zero => rfl
  | succ p ih =>
    rw [List.replicate_succ, List.cons_append, List.takeWhile_cons, ih]
    simp

theorem monthDays_pos (n : Int) (h : 1 ≤ n) :
    monthDays n = 1 :: daysFrom 2 (n.toNat - 1) := by
  obtain ⟨k, hk⟩ : ∃ k, n.toNat = k + 1 := ⟨n.toNat - 1, by omega⟩
  simp only [monthDays, hk, daysFrom, Nat.add_sub_cancel]
  rfl

theorem daysFrom_length (d : Int) (n : Nat) : (daysFrom d n).length = n := by
  induction n generalizing d with
  | zero => rfl
  | succ n ih => simp [daysFrom, ih]

theorem daysInMonthOf_eq_gregorianLength (loc : Location) (hfix : loc.tx = [])
    (year month : Int) (h1 : 1 ≤ month) (h12 : month ≤ 12) :
    daysInMonthOf loc year month = gregorianLength year month := by
  rw [daysInMonthOf_eq loc hfix year month h1 h12,
    gregorianLength_eq_daysIn year month h1 h12]

theorem gregorianLength_bounds (year month : Int) (h1 : 1 ≤ month) (h12 : month ≤ 12) :
    28 ≤ gregorianLength year month ∧ gregorianLength year month ≤ 31 := by
  rw [gregorianLength_eq_daysIn year month h1 h12, daysIn_eq_monthLen]
  exact monthLen_bounds _ month h1 h12

theorem rowCells_placeholders (p : Nat) (l : List String) (n : Nat) :
    rowCells (List.replicate p placeholder ++ l) n = rowCells l (n + p) := by
  induction p generalizing n with
  | zero => rfl
  | succ p ih =>
    rw [List.replicate_succ, List.cons_append, rowCells,
      if_neg (by decide), if_neg (by decide), ih]
    congr 1
    omega

theorem rowCells_days (contribMap : ContribMap) (p : Int) (k : Nat) (d : Int) (n : Nat)
    (hn : (n : Int) = (p + d - 1) % 7) :
    ∀ x ∈ rowCells ((daysFrom d k).flatMap (dayTexts contribMap p)) n, x ≤ 7 := by
  induction k generalizing d n with
  | zero =>
    intro x hx
    simp only [daysFrom, List.flatMap_nil, rowCells, List.mem_singleton] at hx
    omega
  | succ k ih =>
    obtain ⟨hc1, hc2, hc3⟩ := colorForCount_ne (ContribMap.get contribMap d)
    simp only [daysFrom, List.flatMap_cons, dayTexts, List.cons_append, List.nil_append,
      List.append_assoc]
    rw [rowCells, if_neg hc3, if_neg hc2, rowCells, if_neg (by decide), if_pos rfl]
    by_cases h7 : (p + d) % 7 = 0
    · rw [if_pos h7, List.cons_append, List.nil_append, rowCells, if_pos rfl]
      intro x hx
      rcases List.mem_cons.mp hx with hx | hx
      · omega
      · exact ih (d + 1) 0 (by simp only [Nat.cast_zero]; omega) x hx
    · rw [if_neg h7, List.nil_append]
      exact ih (d + 1) (n + 1) (by push_cast; omega)

/-! ## Properties: color bands -/

/-- C1: every non-negative count falls in exactly one of the five bands, with the
boundaries 0, 1, 2-5, 6-9 and 10 and above, and the five cells are pairwise distinct. -/
theorem colorForCount_bands (c : Int) (h : 0 ≤ c) :
    (c = 0 → colorForCount c = "\x1b[48;5;236m  \x1b[0m") ∧
    (c = 1 → colorForCount c = "\x1b[48;5;114m  \x1b[0m") ∧
    (2 ≤ c ∧ c ≤ 5 → colorForCount c = "\x1b[48;5;34m  \x1b[0m") ∧
    (6 ≤ c ∧ c ≤ 9 → colorForCount c = "\x1b[48;5;28m  \x1b[0m") ∧
    (10 ≤ c → colorForCount c = "\x1b[48;5;22m  \x1b[0m") ∧
    (c = 0 ∨ c = 1 ∨ (2 ≤ c ∧ c ≤ 5) ∨ (6 ≤ c ∧ c ≤ 9) ∨ 10 ≤ c) ∧
    ["\x1b[48;5;236m  \x1b[0m", "\x1b[48;5;114m  \x1b[0m", "\x1b[48;5;34m  \x1b[0m",
      "\x1b[48;5;28m  \x1b[0m", "\x1b[48;5;22m  \x1b[0m"].Nodup := by
  refine ⟨?_, ?_, ?_, ?_, ?_, by omega, by decide⟩
  · intro h0
    simp only [colorForCount, if_pos h0]
  · intro h1
    simp only [colorForCount]
    rw [if_neg (by omega), if_pos (by omega)]
  · intro h2
    simp only [colorForCount]
    rw [if_neg (by omega), if_neg (by omega), if_pos (by omega)]
  · intro h6
    simp only [colorForCount]
    rw [if_neg (by omega), if_neg (by omega), if_neg (by omega), if_pos (by omega)]
  · intro h10
    simp only [colorForCount]
    rw [if_neg (by omega), if_neg (by omega), if_neg (by omega), if_neg (by omega)]

theorem colorForCount_bands_witness :
    (0 : Int) ≤ 7 ∧ colorForCount 7 = "\x1b[48;5;28m  \x1b[0m" :=
  ⟨by decide, (colorForCount_bands 7 (by decide)).2.2.2.1 ⟨by decide, by decide⟩⟩

/-- C10: a negative count is rendered as the light-green cell, the cell of count 1, and
not as the no-contribution cell; only the count 0 is rendered as no contribution. -/
theorem colorForCount_negative (c : Int) (h : c < 0) :
    colorForCount c = "\x1b[48;5;114m  \x1b[0m" ∧
    colorForCount c = colorForCount 1 ∧
    colorForCount c ≠ colorForCount 0 ∧
    (∀ n : Int, colorForCount n = colorForCount 0 ↔ n = 0) := by
  have hc : colorForCount c = "\x1b[48;5;114m  \x1b[0m" := by
    simp only [colorForCount]
    rw [if_neg (by omega), if_pos (by omega)]
  refine ⟨hc, by rw [hc]; decide, by rw [hc]; decide, ?_⟩
  intro n
  constructor
  · intro hn
    by_contra h0
    simp only [colorForCount, if_neg h0] at hn
    revert hn
    split_ifs <;> decide
  · intro hn
    rw [hn]

theorem colorForCount_negative_witness :
    (-3 : Int) < 0 ∧ colorForCount (-3) = colorForCount 1 :=
  ⟨by decide, (colorForCount_negative (-3) (by decide)).2.1⟩

/-! ## Properties: the aggregation loop -/

/-- C2: for every target year and month that `time.Now()` can give, the days whose date
string is not a valid ISO date are skipped: the day-count map is the map built from the
response without them.  The hypothesis leaves out only January of year 1, the month of
Go's zero `Time{}`, which no clock shows. -/
theorem aggregate_skips_malformed (year month : Int) (weeks : List Week)
    (h : year ≠ 1 ∨ month ≠ 1) :
    aggregate year month weeks = aggregate year month (removeMalformed weeks) := by
  funext k
  rw [aggregate_apply, aggregate_apply, entries_removeMalformed, List.filter_filter]
  congr 2
  apply List.filter_congr
  intro e _
  by_cases hs : seenDate e.Date = (year, month, k)
  · have hv := (seenDate_eq_iff e.Date year month k h).mp hs
    simp [hs, hv]
  · simp [hs]

theorem aggregate_skips_malformed_witness :
    ((2024 : Int) ≠ 1 ∨ (3 : Int) ≠ 1) ∧
      aggregate 2024 3 [⟨[⟨"2024-03-01", 2⟩, ⟨"2024-03-1", 9⟩, ⟨"", 4⟩]⟩]
        = aggregate 2024 3
            (removeMalformed [⟨[⟨"2024-03-01", 2⟩, ⟨"2024-03-1", 9⟩, ⟨"", 4⟩]⟩]) :=
  ⟨by decide, aggregate_skips_malformed 2024 3 _ (by decide)⟩

set_option maxRecDepth 8192 in
/-- The loop tests the time that `time.Parse` returns and drops its error, and a failed
parse returns the zero time 0001-01-01: were the target January of year 1, a day whose
date string is not a date would be recorded under day 1.  The clock of `time.Now()`
shows no such month, and `aggregate_skips_malformed` covers every other target. -/
theorem aggregate_zero_time_target :
    isoDate "2024-02-30" = none ∧
      aggregate 1 1 [⟨[⟨"2024-02-30", 5⟩]⟩] 1 = some 5 ∧
      aggregate 1 1 (removeMalformed [⟨[⟨"2024-02-30", 5⟩]⟩]) 1 = none ∧
      aggregate 1 1 [⟨[⟨"2024-02-30", 5⟩]⟩]
        ≠ aggregate 1 1 (removeMalformed [⟨[⟨"2024-02-30", 5⟩]⟩]) := by
  refine ⟨by decide, by decide, by decide, ?_⟩
  intro h
  exact absurd (congrFun h 1) (by decide)

/-- C3: days with a valid ISO date outside the target year and month are excluded: the
day-count map is the map built from the response without them, and such a day leaves the
map as it is. -/
theorem aggregate_excludes_out_of_month (year month : Int) (weeks : List Week) :
    aggregate year month weeks = aggregate year month (removeOutOfMonth year month weeks) ∧
      ∀ (contribMap : ContribMap) (d : ContributionDay),
        outOfMonth year month d = true → aggregateDay year month contribMap d = contribMap := by
  constructor
  · funext k
    rw [aggregate_apply, aggregate_apply, entries_removeOutOfMonth, List.filter_filter]
    congr 2
    apply List.filter_congr
    intro e _
    by_cases ho : outOfMonth year month e = true
    · have hs := seenDate_of_outOfMonth year month k e ho
      simp [hs]
    · simp [ho]
  · intro contribMap d ho
    funext k
    rw [aggregateDay_apply, if_neg (seenDate_of_outOfMonth year month k d ho)]

theorem aggregate_excludes_out_of_month_witness :
    aggregate 2024 3 [⟨[⟨"2024-03-05", 1⟩, ⟨"2024-04-01", 2⟩, ⟨"2023-03-05", 6⟩]⟩]
        = aggregate 2024 3
            (removeOutOfMonth 2024 3
              [⟨[⟨"2024-03-05", 1⟩, ⟨"2024-04-01", 2⟩, ⟨"2023-03-05", 6⟩]⟩]) ∧
      aggregateDay 2024 3 ContribMap.empty ⟨"2024-04-01", 2⟩ = ContribMap.empty :=
  ⟨(aggregate_excludes_out_of_month 2024 3 _).1,
    (aggregate_excludes_out_of_month 2024 3 []).2 ContribMap.empty ⟨"2024-04-01", 2⟩
      (by decide)⟩

/-- C4: when every date string is a valid ISO date, the day-count map at a day of the
target month that occurs in the response holds the count of the last entry with that
date in traversal order. -/
theorem aggregate_last_wins (year month : Int) (weeks : List Week) (d : Int)
    (hvalid : ∀ e ∈ entries weeks, (isoDate e.Date).isSome = true)
    (hocc : ∃ e ∈ entries weeks, isoDate e.Date = some (year, month, d)) :
    ∃ last : ContributionDay,
      ((entries weeks).filter
        (fun e => decide (isoDate e.Date = some (year, month, d)))).getLast? = some last ∧
      aggregate year month weeks d = some last.ContributionCount ∧
      ContribMap.get (aggregate year month weeks) d = last.ContributionCount := by
  have hfilter : (entries weeks).filter (fun e => decide (seenDate e.Date = (year, month, d)))
      = (entries weeks).filter (fun e => decide (isoDate e.Date = some (year, month, d))) := by
    apply List.filter_congr
    intro e he
    have := seenDate_eq_iff_of_valid e.Date (year, month, d) (hvalid e he)
    simp only [this]
  obtain ⟨e, he, hd⟩ := hocc
  have hne : (entries weeks).filter
      (fun e => decide (isoDate e.Date = some (year, month, d))) ≠ [] := by
    intro hnil
    have hmem : e ∈ (entries weeks).filter
        (fun e => decide (isoDate e.Date = some (year, month, d))) := by
      rw [List.mem_filter]
      exact ⟨he, by simp [hd]⟩
    rw [hnil] at hmem
    exact absurd hmem (List.not_mem_nil _)
  refine ⟨_, List.getLast?_eq_getLast _ hne, ?_⟩
  have hagg : aggregate year month weeks d = some (((entries weeks).filter
      (fun e => decide (isoDate e.Date = some (year, month, d)))).getLast hne).ContributionCount := by
    rw [aggregate_apply, hfilter, List.getLast?_eq_getLast _ hne]
    rfl
  exact ⟨hagg, by simp only [ContribMap.get, hagg, Option.getD_some]⟩

theorem aggregate_last_wins_witness :
    ∃ last : ContributionDay,
      ((entries [⟨[⟨"2024-03-05", 1⟩, ⟨"2024-02-05", 8⟩]⟩, ⟨[⟨"2024-03-05", 4⟩]⟩]).filter
        (fun e => decide (isoDate e.Date = some (2024, 3, 5)))).getLast? = some last ∧
      aggregate 2024 3 [⟨[⟨"2024-03-05", 1⟩, ⟨"2024-02-05", 8⟩]⟩, ⟨[⟨"2024-03-05", 4⟩]⟩] 5
        = some last.ContributionCount ∧
      ContribMap.get
        (aggregate 2024 3 [⟨[⟨"2024-03-05", 1⟩, ⟨"2024-02-05", 8⟩]⟩, ⟨[⟨"2024-03-05", 4⟩]⟩]) 5
        = last.ContributionCount :=
  aggregate_last_wins 2024 3 _ 5 (by decide) (by decide)

/-! ## The grid in a location with a single offset -/

/-- In a location with a single offset, the number of placeholders before the first
block is the normalized weekday (Monday = 1 .. Sunday = 7) of the 1st of the month
minus 1: 6 for a month starting on Sunday, 0 for one starting on Monday. -/
theorem leading_placeholders_fixed_zone (loc : Location) (hfix : loc.tx = [])
    (year month : Int) (contribMap : ContribMap) (h1 : 1 ≤ month) (h12 : month ≤ 12) :
    (((renderGrid loc year month contribMap).takeWhile
        (fun c => c == placeholder)).length : Int)
        = normalizedWeekday (Date year month 1).Weekday - 1 ∧
      ∃ rest, renderGrid loc year month contribMap
        = List.replicate (normalizedWeekday (Date year month 1).Weekday - 1).toNat placeholder
          ++ colorForCount (ContribMap.get contribMap 1) :: rest := by
  have hlen := gregorianLength_bounds year month h1 h12
  have hdim := daysInMonthOf_eq_gregorianLength loc hfix year month h1 h12
  have hwd := (firstDay_fields loc hfix year month h1 h12).2.2.2.2
  have hw := normalizedWeekday_range (firstDayOf loc year month)
  have hgrid := renderGrid_eq loc year month contribMap
  rw [monthDays_pos _ (by omega), List.flatMap_cons, hwd] at hgrid
  rw [hwd] at hw
  simp only [dayTexts, List.cons_append, List.append_assoc] at hgrid
  have htake : ((renderGrid loc year month contribMap).takeWhile
      (fun c => c == placeholder)).length
      = (normalizedWeekday (Date year month 1).Weekday - 1).toNat := by
    rw [hgrid, takeWhile_placeholders, List.takeWhile_cons]
    have hne := (colorForCount_ne (ContribMap.get contribMap 1)).1
    simp [hne]
  exact ⟨by rw [htake]; omega, ⟨_, hgrid⟩⟩

/-- In every location, no grid row holds more than 7 cells, leading placeholders
included. -/
theorem rows_at_most_seven (loc : Location) (year month : Int) (contribMap : ContribMap) :
    ∀ n ∈ rowCells (renderGrid loc year month contribMap) 0, n ≤ 7 := by
  have hw := normalizedWeekday_range (firstDayOf loc year month)
  rw [renderGrid_eq, rowCells_placeholders]
  exact rowCells_days contribMap _ _ 1 _ (by
    rw [Nat.zero_add, Int.toNat_of_nonneg (by omega)]
    omega)

/-- In a location with a single offset, the grid holds the placeholders and then, for
each day of the month in ascending order, the block of the day, the separator, and a
newline exactly when 7 divides the number of placeholders plus the day; the number of
days is the Gregorian length of the month. -/
theorem grid_fixed_zone (loc : Location) (hfix : loc.tx = []) (year month : Int)
    (contribMap : ContribMap) (h1 : 1 ≤ month) (h12 : month ≤ 12) :
    daysInMonthOf loc year month = gregorianLength year month ∧
      28 ≤ gregorianLength year month ∧ gregorianLength year month ≤ 31 ∧
      renderGrid loc year month contribMap
        = List.replicate (normalizedWeekday (Date year month 1).Weekday - 1).toNat placeholder
          ++ (monthDays (gregorianLength year month)).flatMap (fun d =>
              [colorForCount (ContribMap.get contribMap d), separator]
                ++ (if (7 : Int) ∣ normalizedWeekday (Date year month 1).Weekday - 1 + d
                    then [newline] else [])) := by
  have hdim := daysInMonthOf_eq_gregorianLength loc hfix year month h1 h12
  have hlen := gregorianLength_bounds year month h1 h12
  have hwd := (firstDay_fields loc hfix year month h1 h12).2.2.2.2
  refine ⟨hdim, hlen.1, hlen.2, ?_⟩
  rw [renderGrid_eq, hdim, hwd]
  congr 2
  funext d
  simp only [dayTexts, Int.dvd_iff_emod_eq_zero]

/-! ## Properties: the grid where the local clock skips a midnight -/

/-- C5 fails on the code in `America/Asuncion` for October 2023.  The 1st is a Sunday, so
6 placeholders are due; local midnight of the 1st is skipped, `time.Date` returns
2023-09-30 23:00, a Saturday, and the grid starts with 5 placeholders. -/
theorem leading_placeholders_asuncion (contribMap : ContribMap) :
    (Date 2023 10 1).Weekday = 0 ∧
      normalizedWeekday (Date 2023 10 1).Weekday - 1 = 6 ∧
      ((firstDayOf asuncion 2023 10).Year, (firstDayOf asuncion 2023 10).Month,
        (firstDayOf asuncion 2023 10).Day, (firstDayOf asuncion 2023 10).Clock)
          = (2023, 9, 30, (23, 0, 0)) ∧
      (firstDayOf asuncion 2023 10).Weekday = 6 ∧
      ((renderGrid asuncion 2023 10 contribMap).takeWhile
        (fun c => c == placeholder)).length = 5 ∧
      ∃ rest, renderGrid asuncion 2023 10 contribMap
        = List.replicate 5 placeholder
          ++ colorForCount (ContribMap.get contribMap 1) :: rest := by
  have hwd : (firstDayOf asuncion 2023 10).Weekday = 6 := by decide
  have hdim : daysInMonthOf asuncion 2023 10 = 29 := by decide
  have hgrid := renderGrid_eq asuncion 2023 10 contribMap
  rw [hwd, hdim, monthDays_pos _ (by decide), List.flatMap_cons] at hgrid
  simp only [dayTexts, List.cons_append, List.append_assoc] at hgrid
  have hp : (normalizedWeekday 6 - 1).toNat = 5 := by decide
  rw [hp] at hgrid
  refine ⟨by decide, by decide, by decide, hwd, ?_, ⟨_, hgrid⟩⟩
  rw [hgrid, takeWhile_placeholders, List.takeWhile_cons]
  have hne := (colorForCount_ne (ContribMap.get contribMap 1)).1
  simp [hne]

/-- C7 fails on the code in `Atlantic/Azores` for March 2024.  The month has 31 days;
local midnight of the 31st is skipped, `firstDay.AddDate(0, 1, -1)` is 2024-03-30 23:00,
`daysInMonth` is 30, and the grid holds the blocks of the days 1 to 30 only. -/
theorem one_block_per_day_azores (contribMap : ContribMap) :
    gregorianLength 2024 3 = 31 ∧
      (((firstDayOf azores 2024 3).AddDate 0 1 (-1)).Month,
        ((firstDayOf azores 2024 3).AddDate 0 1 (-1)).Day,
        ((firstDayOf azores 2024 3).AddDate 0 1 (-1)).Clock) = (3, 30, (23, 0, 0)) ∧
      daysInMonthOf azores 2024 3 = 30 ∧
      renderGrid azores 2024 3 contribMap
        = List.replicate 4 placeholder
          ++ (monthDays 30).flatMap (fun d =>
              [colorForCount (ContribMap.get contribMap d), separator]
                ++ (if (7 : Int) ∣ 4 + d then [newline] else [])) := by
  have hwd : (normalizedWeekday (firstDayOf azores 2024 3).Weekday - 1) = 4 := by decide
  have hdim : daysInMonthOf azores 2024 3 = 30 := by decide
  refine ⟨by decide, by decide, hdim, ?_⟩
  rw [renderGrid_eq, hdim, hwd]
  congr 2
  funext d
  simp only [dayTexts, Int.dvd_iff_emod_eq_zero]

set_option maxRecDepth 8192 in
/-- In a location with a single offset, with the current date in March 2024 and a
response whose only March 2024 days are the 1st with count 0 and the 2nd with count 3,
the output is the header for March 2024, 4 placeholders, day 2 in the medium-green band
and every other day of the 31 in the no-contribution band. -/
theorem march_2024_example_fixed_zone (loc : Location) (hfix : loc.tx = [])
    (weeks : List Week)
    (hcounts : ∀ e ∈ entries weeks, ∀ d, isoDate e.Date = some (2024, 3, d) →
      (d = 1 ∧ e.ContributionCount = 0) ∨ (d = 2 ∧ e.ContributionCount = 3))
    (hsecond : ∃ e ∈ entries weeks, isoDate e.Date = some (2024, 3, 2)) :
    (Date 2024 3 1).Weekday = 5 ∧ calendar loc 2024 3 weeks = marchExample := by
  refine ⟨by decide, ?_⟩
  have hget : ∀ d, ContribMap.get (aggregate 2024 3 weeks) d = if d = 2 then 3 else 0 := by
    intro d
    simp only [ContribMap.get, aggregate_apply]
    cases hl : ((entries weeks).filter
        (fun e => decide (seenDate e.Date = (2024, 3, d)))).getLast? with
    | none =>
      simp only [Option.map_none', Option.getD_none]
      by_cases h2 : d = 2
      · subst h2
        obtain ⟨e, he, hd⟩ := hsecond
        have hmem : e ∈ (entries weeks).filter
            (fun e => decide (seenDate e.Date = (2024, 3, 2))) := by
          rw [List.mem_filter]
          exact ⟨he, by simp [(seenDate_eq_iff e.Date 2024 3 2 (by decide)).mpr hd]⟩
        rw [List.getLast?_eq_none_iff] at hl
        rw [hl] at hmem
        exact absurd hmem (List.not_mem_nil _)
      · rw [if_neg h2]
    | some e =>
      have hmem := List.mem_of_getLast?_eq_some hl
      rw [List.mem_filter] at hmem
      have hs := (seenDate_eq_iff e.Date 2024 3 d (by decide)).mp (by simpa using hmem.2)
      simp only [Option.map_some', Option.getD_some]
      rcases hcounts e hmem.1 d hs with ⟨hd, hc⟩ | ⟨hd, hc⟩
      · rw [hc, hd]; rfl
      · rw [hc, hd]; rfl
  have hdim : daysInMonthOf loc 2024 3 = 31 := by
    rw [daysInMonthOf_eq_gregorianLength loc hfix 2024 3 (by decide) (by decide)]
    decide
  have hw : normalizedWeekday (firstDayOf loc 2024 3).Weekday - 1 = 4 := by
    rw [(firstDay_fields loc hfix 2024 3 (by decide) (by decide)).2.2.2.2]
    decide
  have htexts : dayTexts (aggregate 2024 3 weeks) 4 = fun d =>
      [if d = 2 then "\x1b[48;5;34m  \x1b[0m" else "\x1b[48;5;236m  \x1b[0m", "  "]
        ++ (if (4 + d) % 7 = 0 then ["\n"] else []) := by
    funext d
    simp only [dayTexts, hget]
    by_cases h2 : d = 2
    · simp only [if_pos h2]; rfl
    · simp only [if_neg h2]; rfl
  simp only [calendar, render, renderGrid_eq, hdim, hw, htexts]
  decide


set_option maxRecDepth 16384 in
/-- C8 fails on the code in `Atlantic/Azores`.  With the current date 2024-03-01 (a
Friday) and the response of the example, the header, the 4 placeholders and the blocks
of the days 1 to 30 are as stated, but `daysInMonth` is 30: the block of day 31, its
separator and the newline after it are missing from the output. -/
theorem march_2024_example_azores :
    (firstDayOf azores 2024 3).Weekday = 5 ∧
      daysInMonthOf azores 2024 3 = 30 ∧
      calendar azores 2024 3
          [⟨[⟨"2024-02-29", 7⟩, ⟨"2024-03-01", 0⟩, ⟨"2024-03-02", 3⟩]⟩, ⟨[⟨"2024-04-01", 2⟩]⟩]
        ++ ["\x1b[48;5;236m  \x1b[0m", "  ", "\n"] = marchExample ∧
      calendar azores 2024 3
          [⟨[⟨"2024-02-29", 7⟩, ⟨"2024-03-01", 0⟩, ⟨"2024-03-02", 3⟩]⟩, ⟨[⟨"2024-04-01", 2⟩]⟩]
        ≠ marchExample := by
  refine ⟨by decide, by decide, by decide, by decide⟩

/-- C9: when `GITHUB_TOKEN` is empty after loading, whatever the outcome of loading the
`.env` file and whatever `GITHUB_USER` is, the run ends with the fatal log and contains
no HTTP request and no output; with a token, a failure to load the `.env` file is only
logged: there is no fatal log and the request is sent. -/
theorem main_token_check (w : World) :
    (w.token = "" →
      (main w).getLast? = some (Event.logFatal "❌ GITHUB_TOKEN is not defined in the .env file") ∧
      (∀ req, Event.httpDo req ∉ main w) ∧ (∀ text, Event.print text ∉ main w)) ∧
    (w.token ≠ "" →
      (∀ msg, Event.logFatal msg ∉ main w) ∧ ∃ req, Event.httpDo req ∈ main w) := by
  constructor
  · intro h
    simp only [main, if_pos h]
    cases w.dotenvErr <;> simp
  · intro h
    simp only [main, if_neg h]
    cases w.dotenvErr <;> cases hs : w.send _ with
    | error err => simp
    | ok r => cases r <;> simp

theorem main_token_check_witness :
    (main ⟨some "open .env: no such file or directory", "", "octocat",
        fun _ => .ok (.ok []), 2024, 3, Location.UTC⟩).getLast?
      = some (Event.logFatal "❌ GITHUB_TOKEN is not defined in the .env file") :=
  ((main_token_check ⟨some "open .env: no such file or directory", "", "octocat",
    fun _ => .ok (.ok []), 2024, 3, Location.UTC⟩).1 rfl).1


end Gitpaws
